import Mathlib

/-!
Verification development for the `Texttable` fixed-width text-table renderer
embedded in `batch_get_recent_summary.py`.

Modelling conventions for the shallow embedding:
* Python floats are modelled as exact rationals (`ℚ`); float-literal parsing
  is idealized (no binary rounding), with overflow to infinity at `2 ^ 1024`.
* Python exceptions are modelled with `PyErr`; functions that can raise
  return `Except PyErr _` or pair their result with `Option PyErr`.
* Python's `str.split`, regular-expression scanning for ANSI escape codes,
  and `textwrap.wrap` (for inputs without tabs or hyphens) are modelled
  directly over `List Char` / `String`.
-/

deriving instance DecidableEq for Except

namespace TabT

/-- Python exceptions raised by the renderer, as an enumerated model.
`arraySize n` models `ArraySizeError("array should contain n ...")`, so the
payload records the expected count that the message identifies. -/
inductive PyErr where
  | arraySize (expected : Nat)
  | valueError
  | typeError
  | attributeError
  | indexError
  | zeroDivision
  deriving DecidableEq, Repr

/-- Raw cell values handed to the table: Python strings, ints, finite floats
(as exact rationals), the special floats nan, inf, negative inf, and None. -/
inductive CellValue where
  | s (v : String)
  | i (v : Int)
  | q (v : ℚ)
  | nanV
  | infV
  | ninfV
  | noneV
  deriving DecidableEq, Repr

/-- Result of Python's `float(x)` when it does not raise: a finite value or a
non-finite one (nan or an infinity). -/
inductive PyFloat where
  | finite (q : ℚ)
  | nonfinite
  deriving DecidableEq, Repr

/-- Numeric value of a digit list, most significant first. -/
def digitsToNat (l : List Char) : Nat :=
  l.foldl (fun a c => a * 10 + (c.toNat - '0'.toNat)) 0

/-- Case-insensitive comparison of two character lists. -/
def lowerEq (l r : List Char) : Bool :=
  l.map Char.toLower == r.map Char.toLower

/-- Double overflow threshold used by the idealized float model: `2 ^ 1024`
written out so that it evaluates without deep exponentiation. -/
def overflowBound : ℚ :=
  ((179769313486231590772930519078902473361797697894230657273430081157732675805500963132708477322407536021120113879871393357658789768814416622492847430639474124377767893424865485276302219601246094119453082952085005768838150682342462881473913110540827237163350510684586298239947245938479716304835356329624224137216 : Nat) : ℚ)

/-- Parse the exponent suffix (`e`/`E`, optional sign, digits) of a float
literal.  Returns the exponent and the unconsumed remainder, or `none` when
an exponent marker is present but malformed. -/
def parseExpSuffix (l : List Char) : Option (Int × List Char) :=
  match l with
  | 'e' :: t | 'E' :: t =>
    let (sgn, t1) : Int × List Char :=
      match t with
      | '+' :: u => (1, u)
      | '-' :: u => (-1, u)
      | u => (1, u)
    let ds := t1.takeWhile Char.isDigit
    if ds.isEmpty then none
    else some (sgn * (digitsToNat ds : Int), t1.dropWhile Char.isDigit)
  | _ => some (0, l)

/-- Parse the digits part (`ddd`, `ddd.ddd`, `.ddd`, with optional exponent)
of a float literal, returning its exact rational value. -/
def parseDecimal (l : List Char) : Option ℚ :=
  let ip := l.takeWhile Char.isDigit
  let r1 := l.dropWhile Char.isDigit
  let fr : List Char × List Char :=
    match r1 with
    | '.' :: t => (t.takeWhile Char.isDigit, t.dropWhile Char.isDigit)
    | _ => ([], r1)
  if ip.isEmpty ∧ fr.1.isEmpty then none
  else
    match parseExpSuffix fr.2 with
    | none => none
    | some (e, rest) =>
      if rest.isEmpty then
        some (((digitsToNat ip : ℚ) + (digitsToNat fr.1 : ℚ) / 10 ^ fr.1.length) * 10 ^ e)
      else none

/-- Model of Python's `float(string)`: optional sign, then `nan`, `inf`,
`infinity` (case-insensitive) or a decimal literal; values at or beyond the
double range overflow to infinity. -/
def parseFloatStr (v : String) : Option PyFloat :=
  let l := v.data
  let (neg, r) : Bool × List Char :=
    match l with
    | '+' :: t => (false, t)
    | '-' :: t => (true, t)
    | t => (false, t)
  if lowerEq r "nan".data ∨ lowerEq r "inf".data ∨ lowerEq r "infinity".data then
    some PyFloat.nonfinite
  else
    match parseDecimal r with
    | none => none
    | some q =>
      if overflowBound ≤ |q| then some PyFloat.nonfinite
      else some (PyFloat.finite (if neg then -q else q))

/-- Model of Python's `float(x)` for the cell-value universe.  `none` means
the call raises (TypeError for None, OverflowError for out-of-range ints). -/
def pyParse : CellValue → Option PyFloat
  | CellValue.s v => parseFloatStr v
  | CellValue.i n => if overflowBound ≤ |(n : ℚ)| then none else some (PyFloat.finite (n : ℚ))
  | CellValue.q v => some (PyFloat.finite v)
  | CellValue.nanV => some PyFloat.nonfinite
  | CellValue.infV => some PyFloat.nonfinite
  | CellValue.ninfV => some PyFloat.nonfinite
  | CellValue.noneV => none

/-- Floor of a rational, computed as floor division of numerator by
denominator (the denominator is positive). -/
def ratFloor (x : ℚ) : Int := x.num.fdiv x.den

/-- Python's banker's rounding (`round` with no digits): round half to even. -/
def rndHE (x : ℚ) : Int :=
  let n := ratFloor x
  let f := x - (n : ℚ)
  if f < 1 / 2 then n
  else if 1 / 2 < f then n + 1
  else if n % 2 = 0 then n else n + 1

/-- Left-pad a digit string with zeros up to length `p`. -/
def natPad (p : Nat) (s : String) : String :=
  String.mk (List.replicate (p - s.length) '0') ++ s

/-- Fixed-point rendering of a non-negative rational with `p` fractional
digits, modelling C's `%.pf` on the exact value. -/
def formatFixedAbs (p : Nat) (a : ℚ) : String :=
  let m := (rndHE (a * 10 ^ p)).toNat
  let ip := m / 10 ^ p
  let fp := m % 10 ^ p
  toString ip ++ (if p = 0 then "" else "." ++ natPad p (toString fp))

/-- Model of Python's `"%.pf" % x` fixed-point formatting. -/
def formatFixed (p : Nat) (x : ℚ) : String :=
  (if x < 0 then "-" else "") ++ formatFixedAbs p |x|

/-- Fuelled decimal digit counter (structural, so it reduces in proofs). -/
def natDigits : Nat → Nat → Nat
  | 0, _ => 0
  | fuel + 1, n => if n < 10 then 1 else natDigits fuel (n / 10) + 1

/-- Number of decimal digits of a natural number. -/
def digitCount (n : Nat) : Nat := natDigits n n

/-- Decimal exponent of a positive rational: the `e` with `10^e ≤ a < 10^(e+1)`. -/
def qExp10 (a : ℚ) : Int :=
  let e0 : Int := (digitCount a.num.natAbs : Int) - (digitCount a.den : Int)
  if a < 10 ^ e0 then e0 - 1 else if a < 10 ^ (e0 + 1) then e0 else e0 + 1

/-- Scientific rendering of a positive rational with `p` mantissa digits
after the point, modelling C's `%.pe`. -/
def formatExpAbs (p : Nat) (a : ℚ) : String :=
  let e := qExp10 a
  let m := (rndHE (a * 10 ^ (-e) * 10 ^ p)).toNat
  let me2 : Nat × Int := if 10 ^ (p + 1) ≤ m then (10 ^ p, e + 1) else (m, e)
  let ms := toString me2.1
  let mantissa := ms.take 1 ++ (if p = 0 then "" else "." ++ ms.drop 1)
  let es := toString me2.2.natAbs
  mantissa ++ "e" ++ (if me2.2 < 0 then "-" else "+") ++
    (if es.length < 2 then "0" ++ es else es)

/-- Model of Python's `"%.pe" % x` scientific formatting. -/
def formatExp (p : Nat) (x : ℚ) : String :=
  if x = 0 then
    "0" ++ (if p = 0 then "" else "." ++ String.mk (List.replicate p '0')) ++ "e+00"
  else (if x < 0 then "-" else "") ++ formatExpAbs p |x|

/-- Plain-text form of a finite float for `str(x)`, as used by the header
setter.  Real doubles are dyadic so this covers every reachable value. -/
def multP (p : Nat) : Nat → Nat → Nat
  | 0, _ => 0
  | fuel + 1, n => if n % p = 0 ∧ n ≠ 0 ∧ 1 < p then multP p fuel (n / p) + 1 else 0

/-- Model of Python's `str` on a finite float value (terminating decimals). -/
def pyReprFloat (x : ℚ) : String :=
  if x.den = 1 then toString x.num ++ ".0"
  else formatFixed (max (multP 2 x.den x.den) (multP 5 x.den x.den)) x

/-- Model of Python's `str(x)` on raw cell values (used by `header`). -/
def pyStrOfVal : CellValue → String
  | CellValue.s v => v
  | CellValue.i n => toString n
  | CellValue.q v => pyReprFloat v
  | CellValue.nanV => "nan"
  | CellValue.infV => "inf"
  | CellValue.ninfV => "-inf"
  | CellValue.noneV => "None"

/-- The text fallback of `Texttable._str`: return strings unchanged, render
None as "None", and otherwise attempt `x.encode("utf-8")`, which raises
AttributeError for the non-string values in our universe (ints and floats
never reach this branch with an encode attribute in Python 3). -/
def strFallback : CellValue → Except PyErr String
  | CellValue.s v => Except.ok v
  | CellValue.noneV => Except.ok "None"
  | _ => Except.error PyErr.attributeError

/-- Embedding of `Texttable._str`: normalize one raw cell value to display
text given the column dtype string and the table precision. -/
def strCell (prec : Nat) (dtype : String) (x : CellValue) : Except PyErr String :=
  match pyParse x with
  | some (PyFloat.finite f) =>
    if dtype = "i" then Except.ok (toString (rndHE f))
    else if dtype = "f" then Except.ok (formatFixed prec f)
    else if dtype = "e" then Except.ok (formatExp prec f)
    else if dtype = "t" then strFallback x
    else
      if f - (rndHE f : ℚ) = 0 then
        if 10 ^ (8 : Nat) < |f| then Except.ok (formatExp prec f)
        else Except.ok (toString (rndHE f))
      else
        if 10 ^ (8 : Nat) < |f| then Except.ok (formatExp prec f)
        else Except.ok (formatFixed prec f)
  | _ => strFallback x

/-- The mutable state of a `Texttable` instance.  `Option` fields model
Python attributes that may be unset (`hasattr` checks) or `None`. -/
structure TT where
  max_width : Option Nat
  precision : Nat
  deco : Nat
  char_horiz : String
  char_vert : String
  char_corner : String
  char_header : String
  hline_string : Option String
  row_size : Option Nat
  header : List String
  rows : List (List String)
  align : Option (List String)
  valign : Option (List String)
  dtype : Option (List String)
  width : Option (List Int)
  deriving DecidableEq, Repr

/-- Embedding of the constructor: `max_width <= 0` disables wrapping, the
default decoration enables all four features, default border characters. -/
def mkTexttable (mw : Int) : TT :=
  { max_width := if mw ≤ 0 then none else some mw.toNat
    precision := 3
    deco := 15
    char_horiz := "-"
    char_vert := "|"
    char_corner := "+"
    char_header := "="
    hline_string := none
    row_size := none
    header := []
    rows := []
    align := none
    valign := none
    dtype := none
    width := none }

/-- A freshly constructed table with the default `max_width = 80`. -/
def freshT : TT := mkTexttable 80

/-- Python truthiness of the `_row_size` attribute (`None` and `0` are falsy). -/
def rsTruthy : Option Nat → Bool
  | none => false
  | some n => n ≠ 0

/-- Embedding of `Texttable._check_row_size`: a falsy `_row_size` is fixed to
the supplied length (a mutation!); otherwise a mismatch raises
`ArraySizeError` naming the expected count. -/
def checkRowSize (t : TT) (n : Nat) : TT × Option PyErr :=
  if rsTruthy t.row_size then
    if t.row_size ≠ some n then (t, some (PyErr.arraySize (t.row_size.getD 0)))
    else (t, none)
  else ({ t with row_size := some n }, none)

/-- Embedding of `set_chars`: exactly four entries, truncated to one char. -/
def setChars (t : TT) (a : List String) : TT × Option PyErr :=
  match a with
  | [h1, v1, c1, d1] =>
    ({ t with char_horiz := h1.take 1, char_vert := v1.take 1,
              char_corner := c1.take 1, char_header := d1.take 1 }, none)
  | _ => (t, some (PyErr.arraySize 4))

/-- Embedding of `set_deco`. -/
def setDeco (t : TT) (d : Nat) : TT × Option PyErr := ({ t with deco := d }, none)

/-- Embedding of `set_cols_align`. -/
def setColsAlign (t : TT) (a : List String) : TT × Option PyErr :=
  match checkRowSize t a.length with
  | (t1, some e) => (t1, some e)
  | (t1, none) => ({ t1 with align := some a }, none)

/-- Embedding of `set_cols_valign`. -/
def setColsValign (t : TT) (a : List String) : TT × Option PyErr :=
  match checkRowSize t a.length with
  | (t1, some e) => (t1, some e)
  | (t1, none) => ({ t1 with valign := some a }, none)

/-- Embedding of `set_cols_dtype`. -/
def setColsDtype (t : TT) (a : List String) : TT × Option PyErr :=
  match checkRowSize t a.length with
  | (t1, some e) => (t1, some e)
  | (t1, none) => ({ t1 with dtype := some a }, none)

/-- Model of Python's `int(x)` on the cell-value universe: ints unchanged,
finite floats truncated toward zero, strings parsed as integer literals;
None raises TypeError, nan and the infinities raise ValueError-class errors. -/
def pyInt : CellValue → Except PyErr Int
  | CellValue.i n => Except.ok n
  | CellValue.q v => Except.ok (if v < 0 then -((-v).num.fdiv (-v).den) else v.num.fdiv v.den)
  | CellValue.s v =>
    let (neg, r) : Bool × List Char :=
      match v.data with
      | '+' :: u => (false, u)
      | '-' :: u => (true, u)
      | u => (false, u)
    if r.isEmpty ∨ ¬ r.all Char.isDigit then Except.error PyErr.valueError
    else Except.ok (if neg then -(digitsToNat r : Int) else (digitsToNat r : Int))
  | CellValue.noneV => Except.error PyErr.typeError
  | _ => Except.error PyErr.valueError

/-- Sequential `list(map(int, array))`: stops at the first failing
conversion, like Python. -/
def mapPyInt : List CellValue → Except PyErr (List Int)
  | [] => Except.ok []
  | x :: xs =>
    match pyInt x with
    | Except.error e => Except.error e
    | Except.ok n =>
      match mapPyInt xs with
      | Except.error e => Except.error e
      | Except.ok ns => Except.ok (n :: ns)

/-- The conversion-and-validation part of `set_cols_width` (after the
row-size check): coerce with `int()`, `reduce(min, ...)` (TypeError when
empty), reject a non-positive minimum, else store. -/
def widthBody (t1 : TT) (a : List CellValue) : TT × Option PyErr :=
  match mapPyInt a with
  | Except.error e => (t1, some e)
  | Except.ok ns =>
    match ns with
    | [] => (t1, some PyErr.typeError)
    | n0 :: rest =>
      if rest.foldl min n0 ≤ 0 then (t1, some PyErr.valueError)
      else ({ t1 with width := some ns }, none)

/-- Embedding of `set_cols_width`: after the row-size check, each entry is
coerced with `int()`; an empty array makes `reduce(min, ...)` raise
TypeError; a minimum `<= 0` raises ValueError; otherwise the coerced array
is stored. -/
def setColsWidth (t : TT) (a : List CellValue) : TT × Option PyErr :=
  match checkRowSize t a.length with
  | (t1, some e) => (t1, some e)
  | (t1, none) => widthBody t1 a

/-- Classification of sizing errors (`ArraySizeError`). -/
def sizingErr : Option PyErr → Bool
  | some (PyErr.arraySize _) => true
  | _ => false

/-- Embedding of `set_precision`: the argument must be a non-negative int. -/
def setPrecision (t : TT) (w : CellValue) : TT × Option PyErr :=
  match w with
  | CellValue.i n => if n < 0 then (t, some PyErr.valueError) else ({ t with precision := n.toNat }, none)
  | _ => (t, some PyErr.valueError)

/-- Embedding of `header`: row-size check, then `str` of every entry. -/
def headerSet (t : TT) (a : List CellValue) : TT × Option PyErr :=
  match checkRowSize t a.length with
  | (t1, some e) => (t1, some e)
  | (t1, none) => ({ t1 with header := a.map pyStrOfVal }, none)

/-- Normalize a row of raw values against the per-column dtypes, mirroring
the `self._str(i, x)` loop (an out-of-range dtype index raises IndexError). -/
def strCells (prec : Nat) (dt : List String) : List CellValue → Nat → Except PyErr (List String)
  | [], _ => Except.ok []
  | x :: xs, i =>
    match dt.get? i with
    | none => Except.error PyErr.indexError
    | some d =>
      match strCell prec d x with
      | Except.error e => Except.error e
      | Except.ok c =>
        match strCells prec dt xs (i + 1) with
        | Except.error e => Except.error e
        | Except.ok rest => Except.ok (c :: rest)

/-- The cell-normalization-and-append part of `add_row` (after the
row-size check and dtype defaulting). -/
def addRowCells (t2 : TT) (a : List CellValue) : TT × Option PyErr :=
  match strCells t2.precision (t2.dtype.getD []) a 0 with
  | Except.error e => (t2, some e)
  | Except.ok cells => ({ t2 with rows := t2.rows ++ [cells] }, none)

/-- Embedding of `add_row`: row-size check, default dtypes if unset, then
cell normalization; the row is appended only if no cell raises. -/
def addRow (t : TT) (a : List CellValue) : TT × Option PyErr :=
  match checkRowSize t a.length with
  | (t1, some e) => (t1, some e)
  | (t1, none) =>
    addRowCells (if t1.dtype = none then
        { t1 with dtype := some (List.replicate (t1.row_size.getD 0) "a") } else t1) a

/-- Fuelled worker for escape-sequence stripping (structural recursion so
that it reduces inside proofs). -/
def stripAnsiGo : Nat → List Char → List Char
  | 0, l => l
  | fuel + 1, l =>
    match l with
    | [] => []
    | c :: cs =>
      if c = '\x1b' ∧ cs.contains 'm' then stripAnsiGo fuel ((cs.dropWhile (· ≠ 'm')).drop 1)
      else c :: stripAnsiGo fuel cs

/-- Remove every terminal escape sequence (regex `ESC [^m]* m`): from each
ESC that is eventually followed by an `m`, drop through that first `m`; an
ESC with no later `m` does not match and is kept. -/
def stripAnsiL (l : List Char) : List Char := stripAnsiGo l.length l

/-- String wrapper for `stripAnsiL`. -/
def stripAnsi (s : String) : String := String.mk (stripAnsiL s.data)

/-- Split a character list on a separator character (Python `split(sep)`). -/
def splitOnC (sep : Char) : List Char → List (List Char)
  | [] => [[]]
  | c :: cs =>
    if c = sep then [] :: splitOnC sep cs
    else
      match splitOnC sep cs with
      | [] => [[c]]
      | g :: gs => (c :: g) :: gs

/-- Accumulate a tab-separated line's width: each tab advances to the next
multiple-of-8 column, mirroring the loop of `_len_cell`. -/
def tabbedLen : List (List Char) → Nat → Nat
  | [], acc => acc
  | [p], acc => acc + p.length
  | p :: ps, acc => tabbedLen ps (((acc + p.length) / 8 + 1) * 8)

/-- Embedding of `Texttable._len_cell`: visual width of a cell after
stripping escape sequences, across embedded newlines, with tab stops. -/
def lenCell (cell : String) : Nat :=
  ((splitOnC '\n' (stripAnsiL cell.data)).map
      (fun line => tabbedLen (splitOnC '\t' line) 0)).foldl max 0

/-- Merge one row into the running per-column maxima, mirroring the
index-or-append loop of `_compute_cols_width`. -/
def mergeRow : List Nat → List String → List Nat
  | maxi, [] => maxi
  | [], c :: cs => lenCell c :: mergeRow [] cs
  | m :: ms, c :: cs => max m (lenCell c) :: mergeRow ms cs

/-- Natural (unshrunk) column widths: maxima of `lenCell` over the header
and all rows. -/
def naturalWidths (header : List String) (rows : List (List String)) : List Nat :=
  rows.foldl mergeRow (header.map lenCell)

/-- The equal per-column budget `(max_width - items*3 - 1) // items`
(Python floor division, so possibly negative). -/
def equalBudget (m N : Nat) : Int := Int.fdiv ((m : Int) - 3 * N - 1) N

/-- Surrender phase of the shrink branch: each column starts at the budget;
columns below their natural width free their slack, wider ones are counted
as oversized.  State pairs are `(natural, current)`. -/
def surrender (B : Int) : List Nat → List (Int × Int) × Int × Nat
  | [] => ([], 0, 0)
  | ml :: rest =>
    let r := surrender B rest
    if B > (ml : Int) then (((ml : Int), (ml : Int)) :: r.1, r.2.1 + (B - ml), r.2.2)
    else if (ml : Int) > B then (((ml : Int), B) :: r.1, r.2.1, r.2.2 + 1)
    else (((ml : Int), B) :: r.1, r.2.1, r.2.2)

/-- One pass of the redistribution while-loop: every still-needy column is
topped up by at most `fp`, fully satisfied columns leave the oversized
count. -/
def passCols (fp : Nat) : List (Int × Int) → Int → Nat → List (Int × Int) × Int × Nat
  | [], free, ov => ([], free, ov)
  | (ml, cur) :: rest, free, ov =>
    if cur < ml then
      if ml - cur ≤ (fp : Int) then
        let r := passCols fp rest (free - (ml - cur)) (ov - 1)
        ((ml, ml) :: r.1, r.2)
      else
        let r := passCols fp rest (free - fp) ov
        ((ml, cur + fp) :: r.1, r.2)
    else
      let r := passCols fp rest free ov
      ((ml, cur) :: r.1, r.2)

/-- The `while free > 0` redistribution loop.  `none` models the two ways
the Python loop can fail to make progress: a ZeroDivisionError when the
oversized count is zero, or non-termination (fuel exhaustion). -/
def distLoop : Nat → List (Int × Int) → Int → Nat → Option (List (Int × Int) × Int)
  | fuel, l, free, ov =>
    if free ≤ 0 then some (l, free)
    else
      match fuel with
      | 0 => none
      | fuel' + 1 =>
        if ov = 0 then none
        else
          let fp := (free.toNat + ov - 1) / ov
          let r := passCols fp l free ov
          distLoop fuel' r.1 r.2.1 r.2.2

/-- The whole shrink branch of `_compute_cols_width` on given natural
widths: budget, surrender, then the redistribution loop; also returns the
final value of `free`. -/
def shrinkResult (natural : List Nat) (m : Nat) : Option (List (Int × Int) × Int) :=
  let B := equalBudget m natural.length
  let r := surrender B natural
  distLoop r.2.1.toNat r.1 r.2.1 r.2.2

/-- Spec-side formulation of the shrink start state: every column begins at
`min budget natural`. -/
def specStart (B : Int) (natural : List Nat) : List (Int × Int) :=
  natural.map (fun (ml : Nat) => ((ml : Int), min B (ml : Int)))

/-- Spec-side free pool: the total slack surrendered by narrow columns. -/
def specFree (B : Int) (natural : List Nat) : Int :=
  (natural.map (fun (ml : Nat) => max 0 (B - (ml : Int)))).sum

/-- Spec-side oversized count: columns whose natural width exceeds the
budget. -/
def specOversized (B : Int) (natural : List Nat) : Nat :=
  natural.countP (fun (ml : Nat) => B < (ml : Int))

/-- Modelled from the spec's words: the iterative redistribution algorithm —
start at the equal budget, surrender slack of narrow columns into a free
pool, then top up still-oversized columns in `ceil(free/oversized)` passes
until the free pool is exhausted. -/
def specWidths (natural : List Nat) (m : Nat) : Option (List Int) :=
  let B := equalBudget m natural.length
  (distLoop (specFree B natural).toNat (specStart B natural)
      (specFree B natural) (specOversized B natural)).map (fun r => r.1.map Prod.snd)

/-- Embedding of the width computation of `_compute_cols_width` (the part
after the `hasattr` guard): natural widths, then either the shrink branch
or the natural widths verbatim. -/
def computeWidths (header : List String) (rows : List (List String)) (mw : Option Nat) :
    Except PyErr (List Int) :=
  let maxi := naturalWidths header rows
  match maxi with
  | [] => Except.error PyErr.typeError
  | _ =>
    match mw with
    | some m =>
      if m < maxi.sum + maxi.length * 3 + 1 then
        match shrinkResult maxi m with
        | some r => Except.ok (r.1.map Prod.snd)
        | none => Except.error PyErr.zeroDivision
      else Except.ok (maxi.map (fun n => (n : Int)))
    | none => Except.ok (maxi.map (fun n => (n : Int)))

/-- Embedding of `Texttable._compute_cols_width` as a state transformer:
if `_width` is already set (explicitly or by a previous render) it returns
immediately, otherwise it computes and stores the widths. -/
def computeColsWidthT (t : TT) : Except PyErr TT :=
  if t.width.isSome then Except.ok t
  else
    match computeWidths t.header t.rows t.max_width with
    | Except.error e => Except.error e
    | Except.ok ws => Except.ok { t with width := some ws }

/-- Decoration tests (`_has_vlines` etc.): bit tests against `_deco`. -/
def hasVlines (t : TT) : Bool := t.deco &&& 8 > 0

/-- Border bit of the decoration mask. -/
def hasBorder (t : TT) : Bool := t.deco &&& 1 > 0

/-- Header-separator bit of the decoration mask. -/
def hasHeaderDeco (t : TT) : Bool := t.deco &&& 2 > 0

/-- Row-separator bit of the decoration mask. -/
def hasHlines (t : TT) : Bool := t.deco &&& 4 > 0

/-- The four-character reset escape sequence. -/
def resetTok : List Char := ['\x1b', '[', '0', 'm']

/-- Single-pass scanner for the regex `ESC [^m]* m`: returns the matched
escape tokens in order, and whether the scan ended outside a token (no
dangling ESC at end of input).  The accumulator holds a partially-read
token. -/
def toksFrom : Option (List Char) → List Char → List (List Char) × Bool
  | none, [] => ([], true)
  | some _, [] => ([], false)
  | none, c :: cs => if c = '\x1b' then toksFrom (some [c]) cs else toksFrom none cs
  | some tk, c :: cs =>
    if c = 'm' then
      let r := toksFrom none cs
      ((tk ++ [c]) :: r.1, r.2)
    else toksFrom (some (tk ++ [c])) cs

/-- The list of escape tokens of a character list (`re.findall`). -/
def ansiToks (l : List Char) : List (List Char) := (toksFrom none l).1

/-- True when every ESC in the input is completed by a later `m`. -/
def escOk (l : List Char) : Bool := (toksFrom none l).2

/-- The `ansi_keep` stack update of `_splitit`: a reset pops the last open
code, any other escape token is pushed. -/
def keepFold (st : List (List Char)) (toks : List (List Char)) : List (List Char) :=
  toks.foldl (fun k a => if a = resetTok then k.dropLast else k ++ [a]) st

/-- A physical line is well-formed when its escape tokens leave no style
open: the `ansi_keep` stack computed over it ends empty. -/
def ansiBalanced (l : List Char) : Bool := keepFold [] (ansiToks l) = []

/-- Python's `split("\n")` at the character-list level. -/
def splitNl : List Char → List (List Char) := splitOnC '\n'

/-- The per-newline-segment strings `_splitit` hands to `textwrap.wrap`:
each segment is prefixed with the re-opened still-open codes and suffixed
with one reset per code left open at its end. -/
def processedSegs : List (List Char) → List (List Char) → List (List Char)
  | _, [] => []
  | keep, seg :: rest =>
    let c := keep.flatten ++ seg
    let keep' := keepFold [] (ansiToks c)
    (c ++ (List.replicate keep'.length resetTok).flatten) :: processedSegs keep' rest

/-- Space test used by the wrap model (tabs are out of the modelled input
class; `_splitit` inputs in this development contain none). -/
def isSp (c : Char) : Bool := c = ' '

/-- Chunking of `textwrap`: maximal runs of spaces and of non-spaces. -/
def chunksOf : List Char → List (List Char)
  | [] => []
  | c :: cs =>
    match chunksOf cs with
    | [] => [[c]]
    | g :: gs =>
      match g with
      | [] => [c] :: gs
      | gc :: _ => if isSp c = isSp gc then (c :: g) :: gs else [c] :: g :: gs

/-- Greedily take chunks that fit in the remaining width. -/
def takeFit (w : Nat) (curLen : Nat) : List (List Char) → List (List Char) × List (List Char)
  | [] => ([], [])
  | c :: cs =>
    if curLen + c.length ≤ w then
      let r := takeFit w (curLen + c.length) cs
      (c :: r.1, r.2)
    else ([], c :: cs)

/-- Drop a trailing all-whitespace chunk from a built line. -/
def dropTrailSp (l : List (List Char)) : List (List Char) :=
  match l.getLast? with
  | some g =>
    match g with
    | gc :: _ => if isSp gc then l.dropLast else l
    | [] => l
  | none => l

/-- Fuelled greedy line filling, modelling `textwrap._wrap_chunks` with the
default options (drop_whitespace, break_long_words; no hyphen splitting).
The flag records whether no line has been emitted yet. -/
def wrapLines (w : Nat) : Nat → Bool → List (List Char) → List (List Char)
  | 0, _, _ => []
  | _, _, [] => []
  | fuel + 1, first, chunks =>
    let chunks1 :=
      match chunks with
      | g :: gs =>
        (match g with
         | gc :: _ => if ¬ first ∧ isSp gc then gs else chunks
         | [] => chunks)
      | [] => chunks
    match chunks1 with
    | [] => []
    | _ :: _ =>
      let tr := takeFit w 0 chunks1
      let curLen := (tr.1.map List.length).sum
      let tr2 : List (List Char) × List (List Char) :=
        match tr.2 with
        | g :: gs =>
          if w < g.length then
            let spaceLeft := if w < 1 then 1 else w - curLen
            (tr.1 ++ [g.take spaceLeft], g.drop spaceLeft :: gs)
          else tr
        | [] => tr
      let line := dropTrailSp tr2.1
      if line = [] then wrapLines w fuel first tr2.2
      else line.flatten :: wrapLines w fuel false tr2.2

/-- Model of `textwrap.wrap(s, w)` for tab-free input: ValueError on a
non-positive width, else greedy wrapping. -/
def pyWrap (w : Int) (s : List Char) : Except PyErr (List (List Char)) :=
  if w ≤ 0 then Except.error PyErr.valueError
  else Except.ok (wrapLines w.toNat (s.length + (chunksOf s).length + 1) true (chunksOf s))

/-- The per-cell loop body of `_splitit`: process newline segments in order,
re-opening codes kept from the previous segment, closing codes left open,
and wrapping each processed segment to `width + extra_width`. -/
def splitSegs (width : Int) : List (List Char) → List (List Char) →
    Except PyErr (List (List Char))
  | _, [] => Except.ok []
  | keep, seg :: rest =>
    let c := keep.flatten ++ seg
    let toks := ansiToks c
    let extra := (toks.map List.length).sum
    let keep' := keepFold [] toks
    let c2 := c ++ (List.replicate keep'.length resetTok).flatten
    let extra2 := extra + 4 * keep'.length
    match pyWrap (width + (extra2 : Int)) c2 with
    | Except.error e => Except.error e
    | Except.ok ws =>
      match splitSegs width keep' rest with
      | Except.error e => Except.error e
      | Except.ok rs => Except.ok (ws ++ rs)

/-- Wrap one cell to its column width (`_splitit` body for a single cell). -/
def splitCellL (width : Int) (cell : List Char) : Except PyErr (List (List Char)) :=
  splitSegs width [] (splitNl cell)

/-- String-level wrapper of `splitCellL`. -/
def splitCellS (width : Int) (cell : String) : Except PyErr (List String) :=
  (splitCellL width cell.data).map (List.map (fun l => String.mk l))

/-- Vertical-alignment padding of one wrapped cell to the row height. -/
def padCell (m : Nat) (ih : Bool) (v : String) (c : List String) : List String :=
  let v2 := if ih then "t" else v
  if v2 = "m" then
    let missing := m - c.length
    List.replicate (missing / 2) "" ++ c ++ List.replicate (missing / 2 + missing % 2) ""
  else if v2 = "b" then List.replicate (m - c.length) "" ++ c
  else c ++ List.replicate (m - c.length) ""

/-- Pad all cells of a row (`zip` with the valign array; unzipped cells are
left unpadded, as in Python). -/
def padCells (m : Nat) (ih : Bool) : List (List String) → List String → List (List String)
  | [], _ => []
  | cs, [] => cs
  | c :: cs, v :: vs => padCell m ih v c :: padCells m ih cs vs

/-- Wrap every (cell, width) pair of a row in order, propagating the first
error. -/
def wrapRow : List (String × Int) → Except PyErr (List (List String))
  | [] => Except.ok []
  | (c, w) :: rest =>
    match splitCellS w c with
    | Except.error e => Except.error e
    | Except.ok ls =>
      match wrapRow rest with
      | Except.error e => Except.error e
      | Except.ok rs => Except.ok (ls :: rs)

/-- Embedding of `Texttable._splitit`: wrap every cell of a logical row and
pad to uniform height (`reduce(max, ...)` on no cells raises TypeError). -/
def splitit (t : TT) (line : List String) (ih : Bool) : Except PyErr (List (List String)) :=
  match wrapRow (line.zip (t.width.getD [])) with
  | Except.error e => Except.error e
  | Except.ok raw =>
    match raw with
    | [] => Except.error PyErr.typeError
    | r0 :: rrest =>
      let m := (rrest.map List.length).foldl max r0.length
      Except.ok (padCells m ih raw (t.valign.getD []))

/-- A run of `k` spaces (negative counts give the empty string, like
Python's string repetition). -/
def spFill (k : Int) : String := String.mk (List.replicate k.toNat ' ')

/-- Align one physical cell fragment in its column and append the trailing
space, mirroring the `"%s "` formats of `_draw_line`. -/
def alignCell (w : Int) (al : String) (cl : String) : String :=
  let fill : Int := w - ((stripAnsi cl).length : Int)
  if al = "r" then spFill fill ++ cl ++ " "
  else if al = "c" then
    spFill (Int.fdiv fill 2) ++ cl ++ spFill (Int.fdiv fill 2 + Int.fmod fill 2) ++ " "
  else cl ++ spFill fill ++ " "

/-- Emit the cell fragments of one physical line with separators; `total`
is the number of cells of the logical row. -/
def physCells (t : TT) (total : Nat) (i : Nat) (ih : Bool) :
    List ((List String × Int) × String) → Nat → String
  | [], _ => ""
  | ((cell, w), al) :: rest, pos =>
    let cl := cell.getD i ""
    let al2 := if ih then "c" else al
    alignCell w al2 cl ++
      (if pos + 1 < total then (if hasVlines t then t.char_vert else " ") ++ " " else "") ++
      physCells t total i ih rest (pos + 1)

/-- One full physical output line of a row block. -/
def physLineS (t : TT) (zl : List ((List String × Int) × String)) (total : Nat)
    (ih : Bool) (i : Nat) : String :=
  (if hasBorder t then t.char_vert ++ " " else "") ++ physCells t total i ih zl 0 ++
    (if hasBorder t then t.char_vert else "") ++ "\n"

/-- Embedding of `Texttable._draw_line`. -/
def drawLine (t : TT) (line : List String) (ih : Bool) : Except PyErr String :=
  match splitit t line ih with
  | Except.error e => Except.error e
  | Except.ok lw =>
    match lw with
    | [] => Except.error PyErr.indexError
    | first :: _ =>
      let zl := (lw.zip (t.width.getD [])).zip (t.align.getD [])
      Except.ok (String.join ((List.range first.length).map (physLineS t zl lw.length ih)))

/-- Python string repetition (`s * n`, empty for non-positive counts). -/
def strRep (s : String) (n : Int) : String := String.join (List.replicate n.toNat s)

/-- Embedding of `Texttable._build_hline`. -/
def buildHline (t : TT) (isHeader : Bool) : String :=
  let horiz := if isHeader then t.char_header else t.char_horiz
  let sep := horiz ++ (if hasVlines t then t.char_corner else horiz) ++ horiz
  let l := String.intercalate sep ((t.width.getD []).map (fun n => strRep horiz n))
  if hasBorder t then t.char_corner ++ horiz ++ l ++ horiz ++ t.char_corner ++ "\n"
  else l ++ "\n"

/-- Embedding of `Texttable._hline`: builds the row-separator line once and
caches it in the instance. -/
def hlineC (t : TT) : String × TT :=
  match t.hline_string with
  | some s => (s, t)
  | none =>
    let s := buildHline t false
    (s, { t with hline_string := some s })

/-- Embedding of `Texttable._check_align`: default alignments from the row
size when unset. -/
def checkAlign (t : TT) : TT :=
  let t1 := if t.align = none then
      { t with align := some (List.replicate (t.row_size.getD 0) "l") } else t
  if t1.valign = none then
    { t1 with valign := some (List.replicate (t1.row_size.getD 0) "t") } else t1

/-- The row-emission loop of `draw`: each row block followed by a separator
line when row separators are on and the row is not the last. -/
def drawRows (t : TT) : List (List String) → Except PyErr String × TT
  | [] => (Except.ok "", t)
  | [r] =>
    match drawLine t r false with
    | Except.error e => (Except.error e, t)
    | Except.ok s => (Except.ok s, t)
  | r :: rest =>
    match drawLine t r false with
    | Except.error e => (Except.error e, t)
    | Except.ok s =>
      let st := if hasHlines t then hlineC t else ("", t)
      match drawRows st.2 rest with
      | (Except.error e, t2) => (Except.error e, t2)
      | (Except.ok s2, t2) => (Except.ok (s ++ st.1 ++ s2), t2)

/-- The output-assembly part of `draw`: top border, header block, header
separator, row blocks, bottom border. -/
def drawBody (t0 : TT) : Except PyErr String × TT :=
  let s1 := if hasBorder t0 then hlineC t0 else ("", t0)
  match (if s1.2.header ≠ [] then drawLine s1.2 s1.2.header true else Except.ok "") with
  | Except.error e => (Except.error e, s1.2)
  | Except.ok hs =>
    let hsep := if s1.2.header ≠ [] ∧ hasHeaderDeco s1.2 then buildHline s1.2 true else ""
    match drawRows s1.2 s1.2.rows with
    | (Except.error e, t2) => (Except.error e, t2)
    | (Except.ok rs, t2) =>
      let s3 := if hasBorder t2 then hlineC t2 else ("", t2)
      (Except.ok (s1.1 ++ hs ++ hsep ++ rs ++ s3.1), s3.2)

/-- Embedding of `Texttable.draw`: `None` (here `none`) for an empty table,
otherwise compute widths (with caching), default alignments, and emit the
table, trimming the final newline. -/
def draw (t : TT) : Except PyErr (Option String) × TT :=
  if t.header = [] ∧ t.rows = [] then (Except.ok none, t)
  else
    match computeColsWidthT t with
    | Except.error e => (Except.error e, t)
    | Except.ok t1 =>
      let t2 := checkAlign t1
      match drawBody t2 with
      | (Except.error e, t3) => (Except.error e, t3)
      | (Except.ok s, t3) => (Except.ok (some (s.dropRight 1)), t3)

/-- Total remaining need of a shrink state: sum of `natural - current`
over the `(natural, current)` pairs. -/
def sumDiff (l : List (Int × Int)) : Int := (l.map (fun p => p.1 - p.2)).sum

/-- Number of still-oversized pairs (current width below natural width). -/
def countOv (l : List (Int × Int)) : Nat := l.countP (fun p => p.2 < p.1)

/-- Shape of a scanned escape token: ESC, a body free of `m`, then `m`. -/
def wfTok (tok : List Char) : Prop :=
  ∃ mid, tok = '\x1b' :: mid ++ ['m'] ∧ 'm' ∉ mid

/-! Helper lemmas about rounding. -/

theorem ratFloor_intCast (n : ℤ) : ratFloor (n : ℚ) = n := by
  simp [ratFloor, Rat.num_intCast, Rat.den_intCast, Int.fdiv_one]

theorem rndHE_intCast (n : ℤ) : rndHE (n : ℚ) = n := by
  simp only [rndHE, ratFloor_intCast, sub_self]
  norm_num

theorem sub_rndHE_eq_zero_iff (q : ℚ) : q - (rndHE q : ℚ) = 0 ↔ ∃ n : ℤ, q = (n : ℚ) := by
  constructor
  · intro h
    exact ⟨rndHE q, by linarith⟩
  · rintro ⟨n, rfl⟩
    rw [rndHE_intCast]
    ring

/-- C9: calling the render operation on a table that has neither a header
nor any rows returns the empty result (Python `None`) and raises no error,
leaving the state untouched. -/
theorem c9_empty_draw (t : TT) (h1 : t.header = []) (h2 : t.rows = []) :
    draw t = (Except.ok none, t) := by
  unfold draw
  simp [h1, h2]

theorem c9_empty_draw_witness : draw freshT = (Except.ok none, freshT) :=
  c9_empty_draw freshT rfl rfl

/-- C3: for every cell value parsing as a finite real `q` in an `auto`
column, normalization is: integer decimal form when `q` is integral with
magnitude at most `1e8`; exponential with `precision` digits when integral
above `1e8`; fixed-point with `precision` digits when non-integral at most
`1e8`; exponential when non-integral above `1e8`. -/
theorem c3_auto_dtype (p : Nat) (x : CellValue) (q : ℚ)
    (hx : pyParse x = some (PyFloat.finite q)) :
    ((∃ n : ℤ, q = (n : ℚ)) → |q| ≤ 10 ^ (8 : Nat) →
        strCell p "a" x = Except.ok (toString (rndHE q))) ∧
    ((∃ n : ℤ, q = (n : ℚ)) → 10 ^ (8 : Nat) < |q| →
        strCell p "a" x = Except.ok (formatExp p q)) ∧
    ((¬ ∃ n : ℤ, q = (n : ℚ)) → |q| ≤ 10 ^ (8 : Nat) →
        strCell p "a" x = Except.ok (formatFixed p q)) ∧
    ((¬ ∃ n : ℤ, q = (n : ℚ)) → 10 ^ (8 : Nat) < |q| →
        strCell p "a" x = Except.ok (formatExp p q)) := by
  have hiff := sub_rndHE_eq_zero_iff q
  refine ⟨?_, ?_, ?_, ?_⟩ <;> intro hint hmag <;>
    simp only [strCell, hx] <;>
    rw [if_neg (by decide), if_neg (by decide), if_neg (by decide), if_neg (by decide)]
  · rw [if_pos (hiff.mpr hint), if_neg (not_lt.mpr hmag)]
  · rw [if_pos (hiff.mpr hint), if_pos hmag]
  · rw [if_neg (fun h => hint (hiff.mp h)), if_neg (not_lt.mpr hmag)]
  · rw [if_neg (fun h => hint (hiff.mp h)), if_pos hmag]

attribute [local semireducible] Rat.mul Rat.sub Rat.add Rat.inv

theorem c3_auto_dtype_witness :
    strCell 3 "a" (CellValue.q ⟨5, 1, by decide, by decide⟩) = Except.ok "5" ∧
    strCell 3 "a" (CellValue.q ⟨21, 4, by decide, by decide⟩) = Except.ok "5.250" ∧
    strCell 3 "a" (CellValue.i 1000000000) = Except.ok "1.000e+09" := by
  refine ⟨?_, ?_, ?_⟩
  · have h := (c3_auto_dtype 3 (CellValue.q ⟨5, 1, by decide, by decide⟩)
      ⟨5, 1, by decide, by decide⟩ rfl).1 ⟨5, by decide⟩ (by decide)
    rw [h]
    decide
  · have h := (c3_auto_dtype 3 (CellValue.q ⟨21, 4, by decide, by decide⟩)
      ⟨21, 4, by decide, by decide⟩ rfl).2.2.1 (fun hcon => by
        rcases hcon with ⟨n, hn⟩
        have : (⟨21, 4, by decide, by decide⟩ : ℚ).den = 1 := by rw [hn]; exact Rat.den_intCast n
        simp at this) (by decide)
    rw [h]
    decide
  · have h := (c3_auto_dtype 3 (CellValue.i 1000000000) ((1000000000 : ℤ) : ℚ)
      (by decide)).2.1 ⟨1000000000, rfl⟩ (by decide)
    rw [h]
    decide

/-- C4 counterexample: a cell value that is already text but parses as a
finite number is formatted, not emitted as its plain text form, and a float
NaN value raises instead of rendering as text. -/
theorem c4_counterexample :
    strCell 3 "a" (CellValue.s "5.25") = Except.ok "5.250" ∧ ("5.250" ≠ "5.25") ∧
    strCell 3 "a" CellValue.nanV = Except.error PyErr.attributeError := by
  refine ⟨by decide, by decide, by decide⟩

/-- C4 (amended): string values that fail to parse or parse to NaN or an
infinity are emitted unchanged without error; None renders as "None";
non-string values reaching the text fallback (float NaN and infinities)
raise an AttributeError from the bytes-encoding attempt. -/
theorem c4_text_fallback (p : Nat) (d : String) (v : String)
    (hv : parseFloatStr v = none ∨ parseFloatStr v = some PyFloat.nonfinite) :
    strCell p d (CellValue.s v) = Except.ok v ∧
    strCell p d CellValue.noneV = Except.ok "None" ∧
    strCell p d CellValue.nanV = Except.error PyErr.attributeError ∧
    strCell p d CellValue.infV = Except.error PyErr.attributeError ∧
    strCell p d CellValue.ninfV = Except.error PyErr.attributeError := by
  refine ⟨?_, rfl, rfl, rfl, rfl⟩
  rcases hv with h | h <;> simp [strCell, pyParse, h, strFallback]

theorem c4_text_fallback_witness :
    strCell 3 "a" (CellValue.s "hello") = Except.ok "hello" ∧
    strCell 3 "a" CellValue.noneV = Except.ok "None" :=
  ⟨(c4_text_fallback 3 "a" "hello" (Or.inl (by decide))).1,
   (c4_text_fallback 3 "a" "hello" (Or.inl (by decide))).2.1⟩

/-! Helper lemmas about the row-size check and error classification. -/

theorem checkRowSize_width (t : TT) (n : Nat) : ((checkRowSize t n).1).width = t.width := by
  unfold checkRowSize
  split_ifs <;> rfl

theorem checkRowSize_cases (t : TT) (k : Nat) :
    (t.row_size = some k ∧ checkRowSize t k = (t, none)) ∨
    checkRowSize t k = ({ t with row_size := some k }, none) ∨
    ∃ n, t.row_size = some n ∧ checkRowSize t k = (t, some (PyErr.arraySize n)) := by
  unfold checkRowSize
  split_ifs with h1 h2
  · right; right
    rcases hr : t.row_size with _ | n
    · rw [hr] at h1; simp [rsTruthy] at h1
    · exact ⟨n, rfl, by simp [hr]⟩
  · left
    refine ⟨?_, rfl⟩
    rcases hr : t.row_size with _ | n
    · rw [hr] at h1; simp [rsTruthy] at h1
    · rw [hr] at h2; simpa using h2
  · right; left; rfl

theorem checkRowSize_mismatch (t : TT) (n k : Nat) (hn : t.row_size = some n) (h0 : n ≠ 0)
    (hk : k ≠ n) : checkRowSize t k = (t, some (PyErr.arraySize n)) := by
  unfold checkRowSize
  rw [hn]
  rw [if_pos (by simpa [rsTruthy] using h0), if_pos (by simpa using fun h => hk h.symm)]
  rfl

theorem checkRowSize_exact (t : TT) (n : Nat) (hn : t.row_size = some n) (h0 : n ≠ 0) :
    checkRowSize t n = (t, none) := by
  unfold checkRowSize
  rw [hn]
  rw [if_pos (by simpa [rsTruthy] using h0), if_neg (by simp)]

theorem pyInt_ne_arraySize (v : CellValue) (k : Nat) :
    pyInt v ≠ Except.error (PyErr.arraySize k) := by
  cases v <;> simp [pyInt] <;> split_ifs <;> simp

theorem mapPyInt_err (a : List CellValue) (e : PyErr) (h : mapPyInt a = Except.error e) :
    ∃ v ∈ a, pyInt v = Except.error e := by
  induction a with
  | nil => simp [mapPyInt] at h
  | cons x xs ih =>
    unfold mapPyInt at h
    rcases hx : pyInt x with ex | nx
    · rw [hx] at h
      simp only [Except.error.injEq] at h
      exact ⟨x, by simp, by rw [hx, h]⟩
    · rw [hx] at h
      rcases hm : mapPyInt xs with em | ns
      · rw [hm] at h
        simp only [Except.error.injEq] at h
        obtain ⟨v, hv1, hv2⟩ := ih (by rw [hm, h])
        exact ⟨v, by simp [hv1], hv2⟩
      · rw [hm] at h
        simp at h

theorem strFallback_err (x : CellValue) (e : PyErr) (h : strFallback x = Except.error e) :
    e = PyErr.attributeError := by
  cases x <;> simp [strFallback] at h <;> exact h.symm

theorem strCell_err (p : Nat) (d : String) (x : CellValue) (e : PyErr)
    (h : strCell p d x = Except.error e) : e = PyErr.attributeError := by
  unfold strCell at h
  rcases hp : pyParse x with _ | pf
  · rw [hp] at h
    exact strFallback_err x e h
  · rcases pf with f | _
    · rw [hp] at h
      simp only [] at h
      by_cases h1 : d = "i"
      · rw [if_pos h1] at h; simp at h
      rw [if_neg h1] at h
      by_cases h2 : d = "f"
      · rw [if_pos h2] at h; simp at h
      rw [if_neg h2] at h
      by_cases h3 : d = "e"
      · rw [if_pos h3] at h; simp at h
      rw [if_neg h3] at h
      by_cases h4 : d = "t"
      · rw [if_pos h4] at h
        exact strFallback_err x e h
      rw [if_neg h4] at h
      by_cases h5 : f - (rndHE f : ℚ) = 0
      · rw [if_pos h5] at h
        by_cases h6 : 10 ^ (8 : Nat) < |f|
        · rw [if_pos h6] at h; simp at h
        · rw [if_neg h6] at h; simp at h
      · rw [if_neg h5] at h
        by_cases h6 : 10 ^ (8 : Nat) < |f|
        · rw [if_pos h6] at h; simp at h
        · rw [if_neg h6] at h; simp at h
    · rw [hp] at h
      exact strFallback_err x e h

theorem strCells_err (p : Nat) (dt : List String) (a : List CellValue) (i : Nat) (e : PyErr)
    (h : strCells p dt a i = Except.error e) :
    e = PyErr.attributeError ∨ e = PyErr.indexError := by
  induction a generalizing i with
  | nil => simp [strCells] at h
  | cons x xs ih =>
    unfold strCells at h
    split at h
    · simp only [Except.error.injEq] at h
      right; exact h.symm
    · rename_i d hg
      split at h
      · rename_i ec hc
        simp only [Except.error.injEq] at h
        subst h
        left; exact strCell_err p d x ec hc
      · split at h
        · rename_i er hr
          simp only [Except.error.injEq] at h
          subst h
          exact ih (i + 1) hr
        · simp at h

/-- C8 counterexample: a supplied width of `5.7` is not an integer, yet the
call succeeds and stores the truncated value `5` instead of failing. -/
theorem c8_counterexample :
    (setColsWidth freshT [CellValue.q ⟨57, 10, by decide, by decide⟩]).2 = none ∧
    (setColsWidth freshT [CellValue.q ⟨57, 10, by decide, by decide⟩]).1.width = some [5] :=
  ⟨by decide, by decide⟩

/-- C8 (amended): the width setter coerces every entry with Python `int()`
(reals truncate toward zero, strings must be integer literals); a failing
conversion raises that conversion's error, an empty array raises TypeError,
a coerced minimum of at most zero raises ValueError, and otherwise the
coerced widths are stored; in every failing case the stored widths are
unchanged. -/
theorem c8_width_validation (t : TT) (a : List CellValue)
    (hrs : (checkRowSize t a.length).2 = none) :
    (∀ e, mapPyInt a = Except.error e →
      (setColsWidth t a).2 = some e ∧ (setColsWidth t a).1.width = t.width) ∧
    (mapPyInt a = Except.ok [] →
      (setColsWidth t a).2 = some PyErr.typeError ∧ (setColsWidth t a).1.width = t.width) ∧
    (∀ n0 rest, mapPyInt a = Except.ok (n0 :: rest) → rest.foldl min n0 ≤ 0 →
      (setColsWidth t a).2 = some PyErr.valueError ∧ (setColsWidth t a).1.width = t.width) ∧
    (∀ n0 rest, mapPyInt a = Except.ok (n0 :: rest) → 0 < rest.foldl min n0 →
      (setColsWidth t a).2 = none ∧ (setColsWidth t a).1.width = some (n0 :: rest)) := by
  have hw := checkRowSize_width t a.length
  rcases hcr : checkRowSize t a.length with ⟨t1, e1⟩
  rw [hcr] at hrs hw
  simp only at hrs hw
  subst hrs
  refine ⟨?_, ?_, ?_, ?_⟩
  · intro e hm
    simp [setColsWidth, hcr, widthBody, hm, hw]
  · intro hm
    simp [setColsWidth, hcr, widthBody, hm, hw]
  · intro n0 rest hm hmin
    simp [setColsWidth, hcr, widthBody, hm, if_pos hmin, hw]
  · intro n0 rest hm hmin
    simp [setColsWidth, hcr, widthBody, hm, if_neg (not_le.mpr hmin)]

theorem c8_width_validation_witness :
    (setColsWidth freshT [CellValue.i 3]).2 = none ∧
    (setColsWidth freshT [CellValue.i 3]).1.width = some [3] :=
  (c8_width_validation freshT [CellValue.i 3] (by decide)).2.2.2 3 [] (by decide) (by decide)

/-- C7 counterexample: after an empty header fixes the column count to 0,
a one-element per-column array is accepted without a sizing error, because
the falsy zero row size is silently re-fixed. -/
theorem c7_counterexample :
    (headerSet freshT []).1.row_size = some 0 ∧
    (setColsAlign (headerSet freshT []).1 ["l"]).2 = none :=
  ⟨by decide, by decide⟩

/-- C7 (amended): once the column count is fixed to a nonzero `n`, every
row, header, or per-column array of length different from `n` fails with a
sizing error carrying the expected count `n`, and every such call with
length exactly `n` raises no sizing error. -/
theorem c7_fixed_count (t : TT) (n : Nat) (sa : List String) (ca : List CellValue)
    (hn : t.row_size = some n) (h0 : n ≠ 0) :
    (sa.length ≠ n →
      (setColsAlign t sa).2 = some (PyErr.arraySize n) ∧
      (setColsValign t sa).2 = some (PyErr.arraySize n) ∧
      (setColsDtype t sa).2 = some (PyErr.arraySize n)) ∧
    (ca.length ≠ n →
      (setColsWidth t ca).2 = some (PyErr.arraySize n) ∧
      (headerSet t ca).2 = some (PyErr.arraySize n) ∧
      (addRow t ca).2 = some (PyErr.arraySize n)) ∧
    (sa.length = n →
      sizingErr (setColsAlign t sa).2 = false ∧
      sizingErr (setColsValign t sa).2 = false ∧
      sizingErr (setColsDtype t sa).2 = false) ∧
    (ca.length = n →
      sizingErr (setColsWidth t ca).2 = false ∧
      sizingErr (headerSet t ca).2 = false ∧
      sizingErr (addRow t ca).2 = false) := by
  refine ⟨?_, ?_, ?_, ?_⟩
  · intro hne
    have hcr := checkRowSize_mismatch t n sa.length hn h0 hne
    exact ⟨by simp [setColsAlign, hcr], by simp [setColsValign, hcr], by simp [setColsDtype, hcr]⟩
  · intro hne
    have hcr := checkRowSize_mismatch t n ca.length hn h0 hne
    exact ⟨by simp [setColsWidth, hcr], by simp [headerSet, hcr], by simp [addRow, hcr]⟩
  · intro heq
    subst heq
    have hcr := checkRowSize_exact t sa.length (by simpa using hn) (by simpa using h0)
    exact ⟨by simp [setColsAlign, hcr, sizingErr],
           by simp [setColsValign, hcr, sizingErr],
           by simp [setColsDtype, hcr, sizingErr]⟩
  · intro heq
    subst heq
    have hcr := checkRowSize_exact t ca.length (by simpa using hn) (by simpa using h0)
    refine ⟨?_, by simp [headerSet, hcr, sizingErr], ?_⟩
    · have hb : sizingErr (widthBody t ca).2 = false := by
        unfold widthBody
        split
        · rename_i e hm
          obtain ⟨v, _, hv⟩ := mapPyInt_err ca e hm
          rcases e with k | _ | _ | _ | _ | _
          · exact absurd hv (pyInt_ne_arraySize v k)
          all_goals rfl
        · split
          · rfl
          · split <;> rfl
      simpa [setColsWidth, hcr] using hb
    · have hb : ∀ t2, sizingErr (addRowCells t2 ca).2 = false := by
        intro t2
        unfold addRowCells
        split
        · rename_i e hs
          rcases strCells_err _ _ _ _ _ hs with he | he <;> subst he <;> rfl
        · rfl
      simpa [addRow, hcr] using hb _

theorem c7_fixed_count_witness :
    (setColsAlign (setColsAlign freshT ["l", "c"]).1 ["l"]).2 = some (PyErr.arraySize 2) ∧
    sizingErr (setColsDtype (setColsAlign freshT ["l", "c"]).1 ["t", "a"]).2 = false :=
  ⟨((c7_fixed_count (setColsAlign freshT ["l", "c"]).1 2 ["l"] [] (by decide) (by decide)).1
      (by decide)).1,
   ((c7_fixed_count (setColsAlign freshT ["l", "c"]).1 2 ["t", "a"] [] (by decide) (by decide)).2.2.1
      (by decide)).2.2⟩

theorem widthBody_fail_state (t1 : TT) (a : List CellValue) :
    (widthBody t1 a).2.isSome → (widthBody t1 a).1 = t1 := by
  unfold widthBody
  split
  · intro _; rfl
  · split
    · intro _; rfl
    · split_ifs
      · intro _; rfl
      · intro hs; simp at hs

theorem addRowCells_fail_state (t2 : TT) (a : List CellValue) :
    (addRowCells t2 a).2.isSome → (addRowCells t2 a).1 = t2 := by
  unfold addRowCells
  split
  · intro _; rfl
  · intro hs; simp at hs

/-- C5 counterexample: a failing call to the width setter on a fresh table
still fixes the column count, so the observable state after the failed
call differs from the state before it. -/
theorem c5_counterexample :
    (setColsWidth freshT [CellValue.i 0]).2.isSome ∧
    (setColsWidth freshT [CellValue.i 0]).1 ≠ freshT :=
  ⟨by decide, by decide⟩

/-- C5 (amended): a failing setter call never mutates the table state,
except that a call whose length check runs while the column count is still
unset (or zero) fixes the column count even when the call then fails, and a
failing `add_row` may additionally have installed the default dtype array. -/
theorem c5_failed_setter (t : TT) (sa : List String) (ca : List CellValue)
    (w : CellValue) (d : Nat) :
    ((setChars t sa).2.isSome → (setChars t sa).1 = t) ∧
    ((setDeco t d).2 = none) ∧
    ((setColsAlign t sa).2.isSome → (setColsAlign t sa).1 = t) ∧
    ((setColsValign t sa).2.isSome → (setColsValign t sa).1 = t) ∧
    ((setColsDtype t sa).2.isSome → (setColsDtype t sa).1 = t) ∧
    ((setPrecision t w).2.isSome → (setPrecision t w).1 = t) ∧
    ((headerSet t ca).2.isSome → (headerSet t ca).1 = t) ∧
    ((setColsWidth t ca).2.isSome →
      (setColsWidth t ca).1 = t ∨
        (setColsWidth t ca).1 = { t with row_size := some ca.length }) ∧
    ((addRow t ca).2.isSome →
      ∃ t1, (t1 = t ∨ t1 = { t with row_size := some ca.length }) ∧
        ((addRow t ca).1 = t1 ∨
          (addRow t ca).1 = { t1 with dtype := some (List.replicate ca.length "a") })) := by
  refine ⟨?_, rfl, ?_, ?_, ?_, ?_, ?_, ?_, ?_⟩
  · intro hs
    rcases sa with _ | ⟨a1, _ | ⟨a2, _ | ⟨a3, _ | ⟨a4, _ | ⟨a5, rest⟩⟩⟩⟩⟩ <;>
      simp [setChars] at hs ⊢
  · intro hs
    rcases checkRowSize_cases t sa.length with ⟨_, hc⟩ | hc | ⟨n, _, hc⟩ <;>
      simp [setColsAlign, hc] at hs ⊢
  · intro hs
    rcases checkRowSize_cases t sa.length with ⟨_, hc⟩ | hc | ⟨n, _, hc⟩ <;>
      simp [setColsValign, hc] at hs ⊢
  · intro hs
    rcases checkRowSize_cases t sa.length with ⟨_, hc⟩ | hc | ⟨n, _, hc⟩ <;>
      simp [setColsDtype, hc] at hs ⊢
  · intro hs
    rcases w with v | n | v | _ | _ | _ | _ <;>
      first
        | rfl
        | (unfold setPrecision at hs ⊢; simp only [] at hs ⊢;
           split_ifs at hs ⊢ <;> simp_all)
  · intro hs
    rcases checkRowSize_cases t ca.length with ⟨_, hc⟩ | hc | ⟨n, _, hc⟩ <;>
      simp [headerSet, hc] at hs ⊢
  · intro hs
    rcases checkRowSize_cases t ca.length with ⟨hrs, hc⟩ | hc | ⟨n, hrs, hc⟩
    · have he : setColsWidth t ca = widthBody t ca := by simp [setColsWidth, hc]
      rw [he] at hs ⊢
      exact Or.inl (widthBody_fail_state t ca hs)
    · have he : setColsWidth t ca = widthBody { t with row_size := some ca.length } ca := by
        simp [setColsWidth, hc]
      rw [he] at hs ⊢
      exact Or.inr (widthBody_fail_state _ ca hs)
    · simp [setColsWidth, hc]
  · intro hs
    rcases checkRowSize_cases t ca.length with ⟨hrs, hc⟩ | hc | ⟨n, hrs, hc⟩
    · have he : addRow t ca = addRowCells (if t.dtype = none then
          { t with dtype := some (List.replicate (t.row_size.getD 0) "a") } else t) ca := by
        simp [addRow, hc]
      rw [he] at hs ⊢
      by_cases hd : t.dtype = none
      · rw [if_pos hd] at hs ⊢
        refine ⟨t, Or.inl rfl, Or.inr ?_⟩
        rw [addRowCells_fail_state _ _ hs]
        simp [hrs]
      · rw [if_neg hd] at hs ⊢
        exact ⟨t, Or.inl rfl, Or.inl (addRowCells_fail_state _ _ hs)⟩
    · have he : addRow t ca = addRowCells (if t.dtype = none then
          { ({ t with row_size := some ca.length } : TT) with
              dtype := some (List.replicate (({ t with row_size := some ca.length } : TT).row_size.getD 0) "a") }
          else { t with row_size := some ca.length }) ca := by
        simp [addRow, hc]
      rw [he] at hs ⊢
      by_cases hd : t.dtype = none
      · rw [if_pos (by simpa using hd)] at hs ⊢
        refine ⟨{ t with row_size := some ca.length }, Or.inr rfl, Or.inr ?_⟩
        rw [addRowCells_fail_state _ _ hs]
        simp
      · rw [if_neg (by simpa using hd)] at hs ⊢
        exact ⟨{ t with row_size := some ca.length }, Or.inr rfl,
          Or.inl (addRowCells_fail_state _ _ hs)⟩
    · exact ⟨t, Or.inl rfl, Or.inl (by simp [addRow, hc])⟩

theorem c5_failed_setter_witness :
    (setColsWidth freshT [CellValue.i 0]).1 = freshT ∨
    (setColsWidth freshT [CellValue.i 0]).1 = { freshT with row_size := some 1 } :=
  (c5_failed_setter freshT [] [CellValue.i 0] (CellValue.i 0) 0).2.2.2.2.2.2.2.1 (by decide)

/-! Invariant lemmas for the redistribution loop. -/

theorem passCols_le (fp : Nat) (l : List (Int × Int)) (free : Int) (ov : Nat)
    (hle : ∀ p ∈ l, p.2 ≤ p.1) :
    ∀ p ∈ (passCols fp l free ov).1, p.2 ≤ p.1 := by
  induction l generalizing free ov with
  | nil => simp [passCols]
  | cons q rest ih =>
    obtain ⟨ml, cur⟩ := q
    have ht : ∀ p ∈ rest, p.2 ≤ p.1 := fun p hp => hle p (by simp [hp])
    unfold passCols
    split_ifs with h1 h2
    · simp only []
      intro p hp
      rcases List.mem_cons.mp hp with rfl | hp
      · simp
      · exact ih _ _ ht p hp
    · simp only []
      intro p hp
      rcases List.mem_cons.mp hp with rfl | hp
      · simp only []
        omega
      · exact ih _ _ ht p hp
    · simp only []
      intro p hp
      rcases List.mem_cons.mp hp with rfl | hp
      · exact hle (ml, cur) (by simp)
      · exact ih _ _ ht p hp

theorem passCols_sumDiff (fp : Nat) (l : List (Int × Int)) (free : Int) (ov : Nat) :
    sumDiff (passCols fp l free ov).1 - (passCols fp l free ov).2.1 = sumDiff l - free := by
  induction l generalizing free ov with
  | nil => simp [passCols]
  | cons q rest ih =>
    obtain ⟨ml, cur⟩ := q
    unfold passCols
    split_ifs with h1 h2
    · have := ih (free - (ml - cur)) (ov - 1)
      simp only [sumDiff, List.map_cons, List.sum_cons] at *
      linarith
    · have := ih (free - fp) ov
      simp only [sumDiff, List.map_cons, List.sum_cons] at *
      linarith
    · have := ih free ov
      simp only [sumDiff, List.map_cons, List.sum_cons] at *
      linarith

theorem passCols_count (fp : Nat) (l : List (Int × Int)) (free : Int) (ov : Nat)
    (hc : countOv l ≤ ov) :
    countOv (passCols fp l free ov).1 ≤ countOv l ∧
    (passCols fp l free ov).2.2 + countOv l = ov + countOv (passCols fp l free ov).1 := by
  induction l generalizing free ov with
  | nil => simp [passCols, countOv]
  | cons q rest ih =>
    obtain ⟨ml, cur⟩ := q
    have hcons : countOv ((ml, cur) :: rest) =
        countOv rest + (if cur < ml then 1 else 0) := by
      simp [countOv, List.countP_cons]
    rw [hcons] at hc ⊢
    unfold passCols
    split_ifs with h1 h2
    · rw [if_pos h1] at hc
      have ihh := ih (free - (ml - cur)) (ov - 1) (by omega)
      simp only []
      have hl' : countOv ((ml, ml) :: (passCols fp rest (free - (ml - cur)) (ov - 1)).1) =
          countOv (passCols fp rest (free - (ml - cur)) (ov - 1)).1 := by
        simp [countOv, List.countP_cons]
      rw [hl']
      omega
    · rw [if_pos h1] at hc
      have hlt : cur + fp < ml := by omega
      have ihh := ih (free - fp) ov (by omega)
      simp only []
      have hl' : countOv ((ml, cur + fp) :: (passCols fp rest (free - fp) ov).1) =
          countOv (passCols fp rest (free - fp) ov).1 + 1 := by
        simp [countOv, List.countP_cons, hlt]
      rw [hl']
      omega
    · rw [if_neg h1] at hc
      have ihh := ih free ov hc
      simp only []
      have hl' : countOv ((ml, cur) :: (passCols fp rest free ov).1) =
          countOv (passCols fp rest free ov).1 := by
        simp [countOv, List.countP_cons, h1]
      rw [hl']
      omega

theorem passCols_free_le (fp : Nat) (l : List (Int × Int)) (free : Int) (ov : Nat) :
    (passCols fp l free ov).2.1 ≤ free := by
  induction l generalizing free ov with
  | nil => simp [passCols]
  | cons q rest ih =>
    obtain ⟨ml, cur⟩ := q
    unfold passCols
    split_ifs with h1 h2
    · simp only []
      have := ih (free - (ml - cur)) (ov - 1)
      omega
    · simp only []
      have := ih (free - fp) ov
      omega
    · simp only []
      exact ih free ov

theorem passCols_free_lt (fp : Nat) (l : List (Int × Int)) (free : Int) (ov : Nat)
    (hfp : 1 ≤ fp) (hex : 0 < countOv l) :
    (passCols fp l free ov).2.1 ≤ free - 1 := by
  induction l generalizing free ov with
  | nil => simp [countOv] at hex
  | cons q rest ih =>
    obtain ⟨ml, cur⟩ := q
    unfold passCols
    split_ifs with h1 h2
    · simp only []
      have := passCols_free_le fp rest (free - (ml - cur)) (ov - 1)
      omega
    · simp only []
      have := passCols_free_le fp rest (free - fp) ov
      omega
    · simp only []
      have hex' : 0 < countOv rest := by
        have : countOv ((ml, cur) :: rest) = countOv rest := by
          simp [countOv, List.countP_cons, h1]
        omega
      exact ih free ov hex'

theorem countOv_pos (l : List (Int × Int)) (hle : ∀ p ∈ l, p.2 ≤ p.1)
    (hs : 0 < sumDiff l) : 0 < countOv l := by
  induction l with
  | nil => simp [sumDiff] at hs
  | cons q rest ih =>
    obtain ⟨ml, cur⟩ := q
    by_cases h1 : cur < ml
    · have : countOv ((ml, cur) :: rest) = countOv rest + 1 := by
        simp [countOv, List.countP_cons, h1]
      omega
    · have hhd : cur = ml := le_antisymm (hle (ml, cur) (by simp)) (by omega)
      have hsr : 0 < sumDiff rest := by
        simp only [sumDiff, List.map_cons, List.sum_cons] at hs
        simp only [sumDiff]
        omega
      have := ih (fun p hp => hle p (by simp [hp])) hsr
      have : countOv ((ml, cur) :: rest) = countOv rest := by
        simp [countOv, List.countP_cons, h1]
      omega

theorem distLoop_total (fuel : Nat) (l : List (Int × Int)) (free : Int) (ov : Nat)
    (hle : ∀ p ∈ l, p.2 ≤ p.1) (hc : ov = countOv l) (hs : free + 1 ≤ sumDiff l)
    (hf : free.toNat ≤ fuel) :
    ∃ l2 f2, distLoop fuel l free ov = some (l2, f2) ∧ f2 ≤ 0 := by
  induction fuel generalizing l free ov with
  | zero =>
    have hfree : free ≤ 0 := by omega
    exact ⟨l, free, by unfold distLoop; rw [if_pos hfree], hfree⟩
  | succ fuel ih =>
    by_cases hneg : free ≤ 0
    · exact ⟨l, free, by unfold distLoop; rw [if_pos hneg], hneg⟩
    · push_neg at hneg
      have hpos : 0 < sumDiff l := by linarith
      have hovpos : 0 < countOv l := countOv_pos l hle hpos
      have hov : ov ≠ 0 := by omega
      have hfp : 1 ≤ (free.toNat + ov - 1) / ov := by
        rw [Nat.le_div_iff_mul_le (by omega)]
        omega
      obtain ⟨hcle, hcadd⟩ := passCols_count ((free.toNat + ov - 1) / ov) l free ov (by omega)
      have hle' := passCols_le ((free.toNat + ov - 1) / ov) l free ov hle
      have hsd := passCols_sumDiff ((free.toNat + ov - 1) / ov) l free ov
      have hflt := passCols_free_lt ((free.toNat + ov - 1) / ov) l free ov hfp hovpos
      obtain ⟨l2, f2, heq, hf2⟩ := ih (passCols ((free.toNat + ov - 1) / ov) l free ov).1
        (passCols ((free.toNat + ov - 1) / ov) l free ov).2.1
        (passCols ((free.toNat + ov - 1) / ov) l free ov).2.2
        hle' (by omega) (by omega) (by omega)
      refine ⟨l2, f2, ?_, hf2⟩
      unfold distLoop
      rw [if_neg (not_le.mpr hneg)]
      simp only []
      rw [if_neg hov]
      exact heq

/-! Connecting the surrender fold with its spec-side formulation. -/

theorem surrender_fst (B : Int) (nat : List Nat) : (surrender B nat).1 = specStart B nat := by
  induction nat with
  | nil => simp [surrender, specStart]
  | cons ml rest ih =>
    unfold surrender
    split_ifs with h1 h2 <;> simp only [specStart, List.map_cons] at * <;> rw [ih] <;>
      congr 1 <;> simp [specStart] <;> omega

theorem surrender_free (B : Int) (nat : List Nat) : (surrender B nat).2.1 = specFree B nat := by
  induction nat with
  | nil => simp [surrender, specFree]
  | cons ml rest ih =>
    unfold surrender
    split_ifs with h1 h2 <;> simp only [specFree, List.map_cons, List.sum_cons] at * <;>
      rw [← ih] <;> omega

theorem surrender_ov (B : Int) (nat : List Nat) : (surrender B nat).2.2 = specOversized B nat := by
  induction nat with
  | nil => simp [surrender, specOversized]
  | cons ml rest ih =>
    unfold surrender
    split_ifs with h1 h2 <;> simp only [specOversized, List.countP_cons] at * <;> rw [← ih] <;>
      simp_all <;> omega

theorem specStart_le (B : Int) (nat : List Nat) : ∀ p ∈ specStart B nat, p.2 ≤ p.1 := by
  intro p hp
  simp only [specStart, List.mem_map] at hp
  obtain ⟨ml, _, rfl⟩ := hp
  simp

theorem specStart_count (B : Int) (nat : List Nat) :
    countOv (specStart B nat) = specOversized B nat := by
  induction nat with
  | nil => simp [specStart, countOv, specOversized]
  | cons ml rest ih =>
    simp only [specStart, countOv, specOversized, List.map_cons, List.countP_cons] at *
    rw [ih]
    congr 1
    by_cases h : B < (ml : Int) <;> simp [h] <;> omega

theorem specStart_sumDiff (B : Int) (nat : List Nat) :
    sumDiff (specStart B nat) - specFree B nat =
      (nat.map (fun (ml : Nat) => (ml : Int))).sum - B * nat.length := by
  induction nat with
  | nil => simp [specStart, sumDiff, specFree]
  | cons ml rest ih =>
    simp only [specStart, sumDiff, specFree, List.map_cons, List.sum_cons,
      List.length_cons] at *
    push_cast
    push_cast at ih
    have hmul : B * ((rest.length : Int) + 1) = B * (rest.length : Int) + B := by ring
    by_cases h : B ≤ (ml : Int)
    · rw [min_eq_left h, max_eq_left (by omega)]
      linarith [ih]
    · push_neg at h
      rw [min_eq_right (le_of_lt h), max_eq_right (by omega)]
      linarith [ih]

theorem equalBudget_le (m N : Nat) (h0 : 0 < N) :
    (N : Int) * equalBudget m N ≤ (m : Int) - 3 * N - 1 := by
  unfold equalBudget
  have hb : (0 : Int) < (N : Int) := by exact_mod_cast h0
  rw [Int.fdiv_eq_ediv _ (le_of_lt hb)]
  have h1 := Int.ediv_add_emod ((m : Int) - 3 * N - 1) N
  have h2 := Int.emod_nonneg ((m : Int) - 3 * N - 1) (ne_of_gt hb)
  linarith

/-- Totality of the whole shrink branch: under the branch-entry condition
the loop neither divides by zero nor loops forever, and ends with a
non-positive free counter. -/
theorem shrinkResult_total (nat : List Nat) (m : Nat) (hne : nat ≠ [])
    (hover : m < nat.sum + nat.length * 3 + 1) :
    ∃ l2 f2, shrinkResult nat m = some (l2, f2) ∧ f2 ≤ 0 := by
  have h0 : 0 < nat.length := List.length_pos.mpr hne
  have hsum : ((nat.sum : Nat) : Int) = (nat.map (fun (ml : Nat) => (ml : Int))).sum :=
    Nat.cast_list_sum nat
  have hbud := equalBudget_le m nat.length h0
  have hsd := specStart_sumDiff (equalBudget m nat.length) nat
  have hoverZ : (m : Int) < (nat.map (fun (ml : Nat) => (ml : Int))).sum
      + 3 * nat.length + 1 := by
    rw [← hsum]
    exact_mod_cast by omega
  simp only [shrinkResult]
  rw [surrender_fst, surrender_free, surrender_ov]
  apply distLoop_total
  · exact specStart_le _ nat
  · exact (specStart_count _ nat).symm
  · nlinarith [hsd, hbud, hoverZ]
  · exact le_refl _

/-- C10 counterexample: for natural widths [4, 9, 12] and max_width 31 the
shrink branch is entered (4+9+12+3*3+1 = 35 > 31) and the loop terminates
with free = -1, not 0: the last flat top-up overshoots. -/
theorem c10_counterexample :
    (31 : Nat) < [4, 9, 12].sum + [4, 9, 12].length * 3 + 1 ∧
    shrinkResult [4, 9, 12] 31 = some ([(4, 4), (9, 9), (12, 9)], -1) ∧
    ((-1 : Int) ≠ 0) :=
  ⟨by decide, by decide, by decide⟩

/-- C10 (amended): whenever the width-shrinking branch is entered the loop
maintains a strictly positive oversized count while the free counter is
positive, so the per-pass ceiling division never divides by zero and the
loop terminates; the final free counter is at most zero, but may end
negative rather than exactly zero. -/
theorem c10_loop_safety (nat : List Nat) (m : Nat) (hne : nat ≠ [])
    (hover : m < nat.sum + nat.length * 3 + 1) :
    ∃ l2 f2, shrinkResult nat m = some (l2, f2) ∧ f2 ≤ 0 :=
  shrinkResult_total nat m hne hover

theorem c10_loop_safety_witness :
    ∃ l2 f2, shrinkResult [20, 20, 20] 30 = some (l2, f2) ∧ f2 ≤ 0 :=
  c10_loop_safety [20, 20, 20] 30 (by decide) (by decide)

/-! Width preservation through the rendering pipeline. -/

theorem checkAlign_width (t : TT) : (checkAlign t).width = t.width := by
  simp only [checkAlign]
  split_ifs <;> rfl

theorem hlineC_width (t : TT) : ((hlineC t).2).width = t.width := by
  unfold hlineC
  split <;> rfl

theorem drawRows_width (rows : List (List String)) :
    ∀ t : TT, ((drawRows t rows).2).width = t.width := by
  induction rows with
  | nil => intro t; rfl
  | cons r rest ih =>
    intro t
    rcases rest with _ | ⟨r2, rest2⟩
    · unfold drawRows
      rcases hdl : drawLine t r false with e | s <;> rfl
    · unfold drawRows
      rcases hdl : drawLine t r false with e | s
      · rfl
      · simp only []
        have hw2 : ((if hasHlines t then hlineC t else ("", t)).2).width = t.width := by
          split_ifs
          · exact hlineC_width t
          · rfl
        have hih := ih (if hasHlines t then hlineC t else ("", t)).2
        rcases hdr : drawRows (if hasHlines t then hlineC t else ("", t)).2 (r2 :: rest2)
            with ⟨res, t2⟩
        rw [hdr] at hih
        cases res <;> simp only [] <;> rw [hih] <;> exact hw2

theorem drawBody_width (t : TT) : ((drawBody t).2).width = t.width := by
  unfold drawBody
  rcases hs1 : (if hasBorder t then hlineC t else ("", t)) with ⟨str1, t1⟩
  have hw1 : t1.width = t.width := by
    have hh : ((if hasBorder t then hlineC t else ("", t)).2).width = t.width := by
      split_ifs
      · exact hlineC_width t
      · rfl
    rw [hs1] at hh
    exact hh
  simp only []
  rcases hh : (if t1.header ≠ [] then drawLine t1 t1.header true else Except.ok "") with e | hs
  · exact hw1
  · simp only []
    rcases hdr : drawRows t1 t1.rows with ⟨res, t2⟩
    have h2 : t2.width = t1.width := by
      have hdw := drawRows_width t1.rows t1
      rw [hdr] at hdw
      exact hdw
    cases res
    · simp only []
      rw [h2, hw1]
    · have hw3 : ((if hasBorder t2 then hlineC t2 else ("", t2)).2).width = t2.width := by
        split_ifs
        · exact hlineC_width t2
        · rfl
      simp only []
      rw [hw3, h2, hw1]

theorem draw_width_of_compute (t t1 : TT) (hc : computeColsWidthT t = Except.ok t1)
    (hne : ¬ (t.header = [] ∧ t.rows = [])) : ((draw t).2).width = t1.width := by
  unfold draw
  rw [if_neg hne, hc]
  simp only []
  rcases hb : drawBody (checkAlign t1) with ⟨res, t3⟩
  have h3 : t3.width = t1.width := by
    have hbw := drawBody_width (checkAlign t1)
    rw [hb] at hbw
    rw [hbw, checkAlign_width]
  cases res <;> simp only [] <;> exact h3

theorem specWidths_eq_shrink (nat : List Nat) (m : Nat) :
    specWidths nat m = (shrinkResult nat m).map (fun r => r.1.map Prod.snd) := by
  simp only [specWidths, shrinkResult]
  rw [surrender_fst, surrender_free, surrender_ov]

/-- C1: for a table with no explicit widths, an enabled max_width, and
natural widths overflowing the budget, the computed and rendered column
widths equal the spec's iterative redistribution result; and for three
columns of natural widths [20, 20, 20] at max_width 30 the redistributed
widths sum to at most 30 - 3*3 - 1. -/
theorem c1_shrink_refinement :
    (∀ (t : TT) (m : Nat), t.width = none → t.max_width = some m →
      naturalWidths t.header t.rows ≠ [] →
      m < (naturalWidths t.header t.rows).sum + (naturalWidths t.header t.rows).length * 3 + 1 →
      ∃ ws, computeColsWidthT t = Except.ok { t with width := some ws } ∧
        specWidths (naturalWidths t.header t.rows) m = some ws ∧
        ((draw t).2).width = some ws) ∧
    (∃ ws, specWidths [20, 20, 20] 30 = some ws ∧ ws.sum ≤ 30 - 3 * 3 - 1) := by
  constructor
  · intro t m hw hm hne hover
    obtain ⟨l2, f2, hs, _⟩ := shrinkResult_total (naturalWidths t.header t.rows) m hne hover
    have hspec : specWidths (naturalWidths t.header t.rows) m = some (l2.map Prod.snd) := by
      rw [specWidths_eq_shrink, hs]
      rfl
    have hcw : computeWidths t.header t.rows t.max_width = Except.ok (l2.map Prod.snd) := by
      unfold computeWidths
      rcases hnw : naturalWidths t.header t.rows with _ | ⟨n0, ns⟩
      · exact absurd hnw hne
      · rw [hnw] at hs hover
        rw [hm]
        simp only []
        rw [if_pos hover, hs]
    have hcomp : computeColsWidthT t =
        Except.ok { t with width := some (l2.map Prod.snd) } := by
      unfold computeColsWidthT
      rw [if_neg (by simp [hw]), hcw]
    have hne2 : ¬ (t.header = [] ∧ t.rows = []) := by
      rintro ⟨h1, h2⟩
      apply hne
      rw [h1, h2]
      rfl
    refine ⟨l2.map Prod.snd, hcomp, hspec, ?_⟩
    rw [draw_width_of_compute t _ hcomp hne2]
  · exact ⟨[6, 6, 6], by decide, by decide⟩

theorem c1_shrink_refinement_witness :
    ∃ ws, computeColsWidthT (addRow (mkTexttable 30)
        [CellValue.s "aaaaaaaaaaaaaaaaaaaa", CellValue.s "aaaaaaaaaaaaaaaaaaaa",
          CellValue.s "aaaaaaaaaaaaaaaaaaaa"]).1 =
      Except.ok { (addRow (mkTexttable 30)
        [CellValue.s "aaaaaaaaaaaaaaaaaaaa", CellValue.s "aaaaaaaaaaaaaaaaaaaa",
          CellValue.s "aaaaaaaaaaaaaaaaaaaa"]).1 with width := some ws } ∧
      specWidths (naturalWidths (addRow (mkTexttable 30)
        [CellValue.s "aaaaaaaaaaaaaaaaaaaa", CellValue.s "aaaaaaaaaaaaaaaaaaaa",
          CellValue.s "aaaaaaaaaaaaaaaaaaaa"]).1.header
        (addRow (mkTexttable 30)
        [CellValue.s "aaaaaaaaaaaaaaaaaaaa", CellValue.s "aaaaaaaaaaaaaaaaaaaa",
          CellValue.s "aaaaaaaaaaaaaaaaaaaa"]).1.rows) 30 = some ws ∧
      ((draw (addRow (mkTexttable 30)
        [CellValue.s "aaaaaaaaaaaaaaaaaaaa", CellValue.s "aaaaaaaaaaaaaaaaaaaa",
          CellValue.s "aaaaaaaaaaaaaaaaaaaa"]).1).2).width = some ws :=
  c1_shrink_refinement.1 _ 30 (by decide) (by decide) (by decide) (by decide)

theorem addRowCells_width (t2 : TT) (a : List CellValue) :
    ((addRowCells t2 a).1).width = t2.width := by
  unfold addRowCells
  split <;> rfl

theorem addRow_width (t : TT) (a : List CellValue) : ((addRow t a).1).width = t.width := by
  unfold addRow
  rcases hcr : checkRowSize t a.length with ⟨t1, e1⟩
  have h1 : t1.width = t.width := by
    have hcw := checkRowSize_width t a.length
    rw [hcr] at hcw
    exact hcw
  cases e1
  · simp only []
    rw [addRowCells_width]
    split_ifs <;> simp [h1]
  · exact h1

theorem computeColsWidthT_cached (t : TT) (w : List Int) (hw : t.width = some w) :
    computeColsWidthT t = Except.ok t := by
  unfold computeColsWidthT
  rw [if_pos (by simp [hw])]

theorem addRowCells_ok (t2 : TT) (a : List CellValue) (h : (addRowCells t2 a).2 = none) :
    ∃ cells, (addRowCells t2 a).1 = { t2 with rows := t2.rows ++ [cells] } := by
  unfold addRowCells at h ⊢
  split at h
  · simp at h
  · rename_i cells hs
    simp only [hs]
    exact ⟨cells, rfl⟩

theorem addRow_ok_rows (t : TT) (a : List CellValue) (h : (addRow t a).2 = none) :
    (addRow t a).1.rows ≠ [] := by
  have hsplit : ∃ t1, addRow t a = addRowCells (if t1.dtype = none then
      { t1 with dtype := some (List.replicate (t1.row_size.getD 0) "a") } else t1) a := by
    rcases checkRowSize_cases t a.length with ⟨_, hc⟩ | hc | ⟨n, _, hc⟩
    · exact ⟨t, by simp [addRow, hc]⟩
    · exact ⟨{ t with row_size := some a.length }, by simp [addRow, hc]⟩
    · exfalso
      rw [show addRow t a = (t, some (PyErr.arraySize n)) from by simp [addRow, hc]] at h
      simp at h
  obtain ⟨t1, he⟩ := hsplit
  rw [he] at h ⊢
  obtain ⟨cells, hst⟩ := addRowCells_ok _ a h
  rw [hst]
  simp

/-- C2 counterexample: after a first render of a one-column table holding
"ab", adding the row "abcd" and rendering again still uses the cached
width 2 (and the cached separator line), while a fresh computation over the
same content yields width 4 and a different rendering. -/
theorem c2_counterexample :
    ((draw (addRow (draw (addRow freshT [CellValue.s "ab"]).1).2
        [CellValue.s "abcd"]).1).2).width = some [2] ∧
    ((draw { (addRow (draw (addRow freshT [CellValue.s "ab"]).1).2
        [CellValue.s "abcd"]).1 with width := none, hline_string := none }).2).width
      = some [4] ∧
    ((some [2] : Option (List Int)) ≠ some [4]) ∧
    (draw (addRow (draw (addRow freshT [CellValue.s "ab"]).1).2 [CellValue.s "abcd"]).1).1
      ≠ (draw { (addRow (draw (addRow freshT [CellValue.s "ab"]).1).2
        [CellValue.s "abcd"]).1 with width := none, hline_string := none }).1 :=
  ⟨by decide, by decide, by decide, by decide⟩

/-- C2 (amended): the first render computes and caches the column widths in
the instance; rows added afterwards do not invalidate the cache, and a
second render skips the width computation entirely and reuses the cached
widths, so layout is stale with respect to the new content. -/
theorem c2_stale_layout (t : TT) (w : List Int) (r : List CellValue)
    (hw : ((draw t).2).width = some w) (hr : (addRow (draw t).2 r).2 = none) :
    ((draw (addRow (draw t).2 r).1).2).width = some w ∧
    computeColsWidthT (addRow (draw t).2 r).1 = Except.ok (addRow (draw t).2 r).1 := by
  have hW1 : ((addRow (draw t).2 r).1).width = some w := by
    rw [addRow_width]
    exact hw
  have hcache := computeColsWidthT_cached _ w hW1
  have hne : ¬ ((addRow (draw t).2 r).1.header = [] ∧ (addRow (draw t).2 r).1.rows = []) := by
    rintro ⟨_, h2⟩
    exact addRow_ok_rows _ _ hr h2
  refine ⟨?_, hcache⟩
  rw [draw_width_of_compute _ _ hcache hne]
  exact hW1

theorem c2_stale_layout_witness :
    ((draw (addRow (draw (addRow freshT [CellValue.s "ab"]).1).2
        [CellValue.s "xy"]).1).2).width = some [2] ∧
    computeColsWidthT (addRow (draw (addRow freshT [CellValue.s "ab"]).1).2
        [CellValue.s "xy"]).1 =
      Except.ok (addRow (draw (addRow freshT [CellValue.s "ab"]).1).2 [CellValue.s "xy"]).1 :=
  c2_stale_layout (addRow freshT [CellValue.s "ab"]).1 [2] [CellValue.s "xy"]
    (by decide) (by decide)

/-! Escape-token scanner lemmas for the wrap re-open and close invariant. -/

theorem toksFrom_append (x : List Char) :
    ∀ (acc : Option (List Char)) (y : List Char), (toksFrom acc x).2 = true →
      toksFrom acc (x ++ y) =
        ((toksFrom acc x).1 ++ (toksFrom none y).1, (toksFrom none y).2) := by
  induction x with
  | nil =>
    intro acc y h
    cases acc
    · simp [toksFrom]
    · simp [toksFrom] at h
  | cons c cs ih =>
    intro acc y h
    cases acc with
    | none =>
      simp only [List.cons_append, List.append_eq, toksFrom] at h ⊢
      split_ifs at h ⊢ with hc
      · exact ih (some [c]) y h
      · exact ih none y h
    | some t =>
      simp only [List.cons_append, List.append_eq, toksFrom] at h ⊢
      split_ifs at h ⊢ with hc
      · simp only [] at h
        rw [ih none y h]
        simp
      · exact ih (some (t ++ [c])) y h

theorem scanTok_run (mid : List Char) :
    ∀ (t : List Char) (rest : List Char), 'm' ∉ mid →
      toksFrom (some t) (mid ++ 'm' :: rest) =
        ((t ++ mid ++ ['m']) :: (toksFrom none rest).1, (toksFrom none rest).2) := by
  induction mid with
  | nil =>
    intro t rest _
    simp [toksFrom]
  | cons c cs ih =>
    intro t rest hm
    have hc : ¬ c = 'm' := by
      intro hcc
      exact hm (by simp [hcc])
    have hcs : 'm' ∉ cs := fun hin => hm (by simp [hin])
    simp only [List.cons_append, List.append_eq, toksFrom]
    rw [if_neg hc, ih (t ++ [c]) rest hcs]
    simp

theorem toksFrom_wf (x : List Char) :
    ∀ (acc : Option (List Char)),
      (∀ t, acc = some t → ∃ mid, t = '\x1b' :: mid ∧ 'm' ∉ mid) →
      ∀ tok ∈ (toksFrom acc x).1, wfTok tok := by
  induction x with
  | nil =>
    intro acc hacc tok htok
    cases acc <;> simp [toksFrom] at htok
  | cons c cs ih =>
    intro acc hacc tok htok
    cases acc with
    | none =>
      simp only [toksFrom] at htok
      split_ifs at htok with hc
      · refine ih (some [c]) (fun t ht => ?_) tok htok
        obtain rfl : t = [c] := by simpa using ht.symm
        exact ⟨[], by rw [hc], by simp⟩
      · exact ih none (by simp) tok htok
    | some t =>
      simp only [toksFrom] at htok
      split_ifs at htok with hc
      · simp only [List.mem_cons] at htok
        rcases htok with rfl | htok
        · obtain ⟨mid, rfl, hmid⟩ := hacc t rfl
          exact ⟨mid, by simp [hc], hmid⟩
        · exact ih none (by simp) tok htok
      · refine ih (some (t ++ [c])) (fun t' ht' => ?_) tok htok
        obtain ⟨mid, rfl, hmid⟩ := hacc t rfl
        obtain rfl : t' = ('\x1b' :: mid) ++ [c] := by simpa using ht'.symm
        refine ⟨mid ++ [c], by simp, ?_⟩
        simp only [List.mem_append, List.mem_singleton]
        rintro (h1 | h2)
        · exact hmid h1
        · exact hc h2.symm

theorem wfTok_selfscan (tok : List Char) (h : wfTok tok) (y : List Char) :
    toksFrom none (tok ++ y) = (tok :: (toksFrom none y).1, (toksFrom none y).2) := by
  obtain ⟨mid, rfl, hm⟩ := h
  have hassoc : ('\x1b' :: mid ++ ['m']) ++ y = '\x1b' :: (mid ++ 'm' :: y) := by simp
  rw [hassoc]
  simp only [toksFrom, if_true]
  rw [scanTok_run mid ['\x1b'] y hm]
  simp

theorem toks_flatten_keep (keep : List (List Char)) (hwf : ∀ tok ∈ keep, wfTok tok)
    (y : List Char) :
    toksFrom none (keep.flatten ++ y) = (keep ++ (toksFrom none y).1, (toksFrom none y).2) := by
  induction keep with
  | nil => simp
  | cons tok ks ih =>
    have h1 := hwf tok (by simp)
    have h2 : ∀ t ∈ ks, wfTok t := fun t ht => hwf t (by simp [ht])
    have hassoc : (tok :: ks).flatten ++ y = tok ++ (ks.flatten ++ y) := by simp
    rw [hassoc, wfTok_selfscan tok h1 (ks.flatten ++ y), ih h2]
    simp

theorem toks_flatten (keep : List (List Char)) (hwf : ∀ tok ∈ keep, wfTok tok) :
    toksFrom none keep.flatten = (keep, true) := by
  have h := toks_flatten_keep keep hwf []
  simpa [toksFrom] using h

theorem ansiToks_append (x y : List Char) (h : escOk x = true) :
    ansiToks (x ++ y) = ansiToks x ++ ansiToks y := by
  simp only [ansiToks, escOk] at *
  rw [toksFrom_append x none y h]

theorem ansiToks_flatten (keep : List (List Char)) (hwf : ∀ tok ∈ keep, wfTok tok) :
    ansiToks keep.flatten = keep := by
  simp only [ansiToks]
  rw [toks_flatten keep hwf]

theorem keepFold_cons (st : List (List Char)) (x : List Char) (xs : List (List Char)) :
    keepFold st (x :: xs) =
      keepFold (if x = resetTok then st.dropLast else st ++ [x]) xs := rfl

theorem keepFold_append (st : List (List Char)) (a b : List (List Char)) :
    keepFold st (a ++ b) = keepFold (keepFold st a) b :=
  List.foldl_append _ _ _ _

theorem keepFold_nonreset (a : List (List Char)) :
    ∀ st, (∀ t ∈ st, t ≠ resetTok) → ∀ t ∈ keepFold st a, t ≠ resetTok := by
  induction a with
  | nil => intro st h; exact h
  | cons hd xs ih =>
    intro st h
    rw [keepFold_cons]
    apply ih
    split_ifs with hx
    · intro t ht
      exact h t ((List.dropLast_sublist st).subset ht)
    · intro t ht
      rcases List.mem_append.mp ht with ht | ht
      · exact h t ht
      · simp only [List.mem_singleton] at ht
        subst ht
        exact hx

theorem keepFold_wf (a : List (List Char)) :
    ∀ st, (∀ t ∈ st, wfTok t) → (∀ t ∈ a, wfTok t) → ∀ t ∈ keepFold st a, wfTok t := by
  induction a with
  | nil => intro st h _; exact h
  | cons hd xs ih =>
    intro st hst ha
    rw [keepFold_cons]
    apply ih
    · split_ifs with hx
      · intro t ht
        exact hst t ((List.dropLast_sublist st).subset ht)
      · intro t ht
        rcases List.mem_append.mp ht with ht | ht
        · exact hst t ht
        · simp only [List.mem_singleton] at ht
          subst ht
          exact ha t (by simp)
    · intro t ht
      exact ha t (by simp [ht])

theorem keepFold_resets (n : Nat) : ∀ st : List (List Char), st.length = n →
    keepFold st (List.replicate n resetTok) = [] := by
  induction n with
  | zero =>
    intro st h
    rw [List.length_eq_zero.mp h]
    rfl
  | succ n ih =>
    intro st h
    rw [List.replicate_succ, keepFold_cons, if_pos rfl]
    exact ih st.dropLast (by rw [List.length_dropLast, h]; omega)

/-- C6 counterexample: a bold-styled cell wraps into two fragments; the
code at the wrap point is neither reset at the end of the first fragment
nor re-opened at the start of the second, so the first physical line is
not independently well-formed. -/
theorem c6_counterexample :
    splitCellS 3 "\x1b[1mAAA BBB\x1b[0m" = Except.ok ["\x1b[1mAAA", "BBB\x1b[0m"] ∧
    ansiBalanced "\x1b[1mAAA".data = false :=
  ⟨by decide, by decide⟩

theorem processedSegs_balanced (segs : List (List Char)) :
    ∀ keep, (∀ tok ∈ keep, wfTok tok ∧ tok ≠ resetTok) →
      (∀ seg ∈ segs, escOk seg = true) →
      ∀ s ∈ processedSegs keep segs, ansiBalanced s = true := by
  induction segs with
  | nil =>
    intro keep _ _ s hs
    simp [processedSegs] at hs
  | cons seg rest ih =>
    intro keep hkeep hok s hs
    simp only [processedSegs, List.mem_cons] at hs
    have hkwf : ∀ tok ∈ keep, wfTok tok := fun t ht => (hkeep t ht).1
    have htoksc := toks_flatten_keep keep hkwf seg
    have hco : escOk (keep.flatten ++ seg) = true := by
      simp only [escOk, htoksc]
      exact hok seg (by simp)
    have htc : ansiToks (keep.flatten ++ seg) = keep ++ ansiToks seg := by
      simp only [ansiToks, htoksc]
    have hsegwf : ∀ tok ∈ ansiToks seg, wfTok tok := fun tok ht =>
      toksFrom_wf seg none (by simp) tok ht
    have hallwf : ∀ tok ∈ ansiToks (keep.flatten ++ seg), wfTok tok := by
      rw [htc]
      intro tok ht
      rcases List.mem_append.mp ht with ht | ht
      · exact hkwf tok ht
      · exact hsegwf tok ht
    have hkeep'wf : ∀ tok ∈ keepFold [] (ansiToks (keep.flatten ++ seg)), wfTok tok :=
      keepFold_wf _ [] (by simp) hallwf
    have hkeep'nr : ∀ tok ∈ keepFold [] (ansiToks (keep.flatten ++ seg)), tok ≠ resetTok :=
      keepFold_nonreset _ [] (by simp)
    rcases hs with rfl | hs
    · have hresetwf : ∀ tok ∈ List.replicate
          (keepFold [] (ansiToks (keep.flatten ++ seg))).length resetTok, wfTok tok := by
        intro tok ht
        rw [List.eq_of_mem_replicate ht]
        exact ⟨['[', '0'], rfl, by decide⟩
      have key : ansiToks ((keep.flatten ++ seg) ++ (List.replicate
            (keepFold [] (ansiToks (keep.flatten ++ seg))).length resetTok).flatten) =
          ansiToks (keep.flatten ++ seg) ++ List.replicate
            (keepFold [] (ansiToks (keep.flatten ++ seg))).length resetTok := by
        rw [ansiToks_append _ _ hco, ansiToks_flatten _ hresetwf]
      simp only [ansiBalanced, decide_eq_true_eq]
      rw [key, keepFold_append,
        keepFold_resets (keepFold [] (ansiToks (keep.flatten ++ seg))).length _ rfl]
    · exact ih (keepFold [] (ansiToks (keep.flatten ++ seg)))
        (fun t ht => ⟨hkeep'wf t ht, hkeep'nr t ht⟩)
        (fun sg hsg => hok sg (by simp [hsg])) s hs

/-- C6 (amended): codes still open at an embedded newline boundary are
closed at the end of that segment and re-opened at the start of the next
one, so every processed newline segment handed to the wrapper is, taken
whole, independently well-formed; but fragments produced by width-wrapping
inside a segment are not individually reset or re-opened. -/
theorem c6_segment_balance (cell : String)
    (hok : ∀ seg ∈ splitNl cell.data, escOk seg = true) :
    ∀ s ∈ processedSegs [] (splitNl cell.data), ansiBalanced s = true :=
  processedSegs_balanced (splitNl cell.data) [] (by simp) hok

theorem c6_segment_balance_witness :
    ansiBalanced "\x1b[1mAB\x1b[0m".data = true :=
  c6_segment_balance "\x1b[1mAB\nCD" (by decide) "\x1b[1mAB\x1b[0m".data (by decide)

end TabT
